import Mathlib

/-!
Shallow embedding of the godi dependency-injection container (Go) and proofs
about its resolution engine.

Modelling conventions:
* `reflect.Type` is modelled by `GoType`: an identifier plus interface
  information sufficient for `matchType` (type identity, or interface
  satisfaction via the `implements` list).
* `reflect.Value` is modelled by the inductive `Value`.  A value's Closeable
  capability (`comp.Type().Implements(CloseableType)` plus the result of its
  `Close()` call) is carried on the value itself as `closeInfo`:
  `none` means the type does not implement `Closeable`; `some r` means it
  does and `Close()` returns `r` (`none` inside means a nil error).
* Errors built with `fmt.Errorf` are modelled structurally: a leaf message
  (`GoErr.emsg`), the cycle error built by `Tracker.Push` carrying the cycle
  slice it computed (`GoErr.ecycle`), a wrapping error corresponding to
  `fmt.Errorf("...: %w", err)` (`GoErr.wrap`), and `errors.Join`
  (`GoErr.joined`).
* Go maps with unspecified iteration order (`sync.Map.Range`, the basket map
  in `queryByType.find`) are modelled as association lists iterated in
  insertion order; no claim below depends on the iteration order itself.
* The execution model is sequential: the per-name mutexes of the lock
  manager (whose implementation is not part of the sources, only its callers)
  are no-ops, and `sync.Map` is a plain association list.  State mutations
  (the component store, and an instrumentation log of `Provide` invocations)
  are threaded explicitly and persist across returned errors, as they do in
  the Go code.
* The mutually recursive resolution engine (`resolve` / collectors /
  `provideUsing`) is stratified by a fuel parameter consumed once per
  `provideUsing` nesting level; exhausted fuel yields a designated error.
-/

namespace Godi

/-- Model of `reflect.Type`: a type identifier, whether the type is an
interface kind, and the identifiers of the interfaces the type implements. -/
structure GoType where
  id : String
  isInterface : Bool
  impls : List String
deriving DecidableEq

/-- Embedding of `matchType` (types.go / part_001): types are compatible when
identical, or when the query type is an interface implemented by the provided
type. -/
def matchType (queryType providedType : GoType) : Bool :=
  queryType == providedType ||
    (queryType.isInterface && providedType.impls.contains queryType.id)

/-- The `string` type (`StringType` in the sources). -/
def StringType : GoType := ⟨"string", false, []⟩

/-- Embedding of `Name` (resolver.go): identity of a component. -/
structure Name where
  name : String
  typ : GoType
deriving DecidableEq

/-- Rendering of `Name.String()`: `(%s, %s)`. -/
def Name.render (n : Name) : String :=
  "(" ++ n.name ++ ", " ++ n.typ.id ++ ")"

/-- Model of `reflect.Value` as stored and passed around by the container. -/
inductive Value where
  | invalid : Value
  | obj (typ : GoType) (data : Nat) (closeInfo : Option (Option String)) : Value
  | strv (s : String) : Value
  | slice (elemTyp : GoType) (elems : List Value) : Value
  | mapv (elemTyp : GoType) (entries : List (String × Value)) : Value

/-- The string carried by a `Value.strv`, as read by `reflect.Value.String()`
in `validateCondition`; other kinds yield a placeholder. -/
def Value.asString : Value → String
  | .strv s => s
  | _ => "<not a string>"

/-- The Closeable capability of a stored value: `none` when the value's type
does not implement `Closeable`, otherwise the result of calling `Close()`. -/
def Value.closeCap : Value → Option (Option String)
  | .obj _ _ ci => ci
  | _ => none

/-- Structural model of Go error chains built by the container. -/
inductive GoErr where
  | emsg (msg : String) : GoErr
  | ecycle (cycle : List Name) : GoErr
  | wrap (ctx : String) (inner : GoErr) : GoErr
  | joined (errs : List GoErr) : GoErr

/-- Embedding of `errors.Join`: nil for an empty list. -/
def joinErrors (errs : List GoErr) : Option GoErr :=
  match errs with
  | [] => none
  | es => some (.joined es)

/-- Whether the error chain bottoms out in a `Tracker.Push` cycle error whose
cycle slice contains every name in `ns`.  (`joined` errors are produced only
by `Close` and never wrap cycle errors in this development.) -/
def errHasCycleWith (ns : List Name) : GoErr → Bool
  | .emsg _ => false
  | .ecycle c => ns.all (fun n => c.contains n)
  | .wrap _ inner => errHasCycleWith ns inner
  | .joined _ => false

/-- A string mention: `needle` occurs as a substring of `hay`. -/
def StrMentions (hay needle : String) : Prop :=
  needle.toList <:+: hay.toList

instance (hay needle : String) : Decidable (StrMentions hay needle) :=
  inferInstanceAs (Decidable (needle.toList <:+: hay.toList))

/-! ## Tracker (src/unnamed/part_022) -/

/-- Embedding of `Tracker`: `visited` models the `set.Set[Name]` (a Go map
used as a set; we keep it as the list of inserted elements, most recent
first), `stack` the slice. -/
structure Tracker where
  visited : List Name
  stack : List Name
deriving DecidableEq

/-- Embedding of `NewTracker`. -/
def newTracker : Tracker := ⟨[], []⟩

/-- Embedding of `NewTrackerFrom`: the visited set is cloned by value, the
stack slice header is copied (sequentially, a plain copy). -/
def trackerBranch (t : Tracker) : Tracker := ⟨t.visited, t.stack⟩

/-- The loop in `Tracker.Push` that reconstructs the cycle: walk `l` (the
stack read from the top) accumulating names until `n` inclusive; if `n` never
appears the entire list is taken. -/
def takeUntilIncl (n : Name) : List Name → List Name
  | [] => []
  | x :: xs => if x = n then [x] else x :: takeUntilIncl n xs

/-- The cycle slice built by `Tracker.Push` on a re-visited name `n`:
`cycle := []Name{n}` followed by the stack traversed from its top. -/
def buildCycle (n : Name) (stack : List Name) : List Name :=
  n :: takeUntilIncl n stack.reverse

/-- Embedding of `Tracker.Push`: fails with the cycle error when `n` is
already visited, otherwise adds `n` to the visited set and the stack. -/
def trackerPush (t : Tracker) (n : Name) : Except GoErr Tracker :=
  if t.visited.contains n then
    .error (.ecycle (buildCycle n t.stack))
  else
    .ok ⟨n :: t.visited, t.stack ++ [n]⟩

/-- Embedding of `Tracker.Pop`: the empty-stack panic is modelled as the
error carrying the panic message; otherwise the top of the stack is removed
from both structures and returned. -/
def trackerPop (t : Tracker) : Except String (Name × Tracker) :=
  match t.stack.getLast? with
  | none => .error "tracker: pop from empty stack"
  | some n => .ok (n, ⟨t.visited.filter (fun m => m ≠ n), t.stack.dropLast⟩)

/-! ## Component store (src/store.go) -/

/-- Embedding of `Store.Get` over the association-list model of `sync.Map`. -/
def storeGet : List (Name × Value) → Name → Option Value
  | [], _ => none
  | (k, v) :: rest, n => if k = n then some v else storeGet rest n

/-- Embedding of `Store.Put` (`sync.Map.Store`): replaces an existing entry,
otherwise appends. -/
def storePut : List (Name × Value) → Name → Value → List (Name × Value)
  | [], n, v => [(n, v)]
  | (k, w) :: rest, n, v =>
    if k = n then (n, v) :: rest else (k, w) :: storePut rest n v

/-- Embedding of the `Store.Close` range loop: for every stored value whose
type implements `Closeable`, invoke `Close()`; return the names on which
`Close` was invoked and the collected errors (each wrapped with the
`failed to close component %s` context), in range order. -/
def storeCloseRun : List (Name × Value) → List Name × List GoErr
  | [] => ([], [])
  | (n, c) :: rest =>
    let (ns, es) := storeCloseRun rest
    match c.closeCap with
    | none => (ns, es)
    | some none => (n :: ns, es)
    | some (some m) =>
      (n :: ns, .wrap ("failed to close component " ++ n.render) (.emsg m) :: es)

/-- Embedding of `Store.Close` / `Resolver.Close`: the join of the collected
close errors. -/
def storeClose (store : List (Name × Value)) : Option GoErr :=
  joinErrors (storeCloseRun store).2

/-! ## Requests, queries, validators, collectors -/

/-- The two query kinds of query.go. -/
inductive QueryK where
  | byType (typ : GoType) : QueryK
  | byName (n : Name) : QueryK
deriving DecidableEq

/-- The three validators of part_014. -/
inductive ValidatorK where
  | uniqueMandatory : ValidatorK
  | uniqueOptional : ValidatorK
  | multiple : ValidatorK
deriving DecidableEq

/-- The three collectors wired by inject.go and the `Resolve*` entry points. -/
inductive CollectorK where
  | unique : CollectorK
  | multipleAsSlice : CollectorK
  | multipleAsMap : CollectorK
deriving DecidableEq

/-- Embedding of `Request` (resolver.go).  The `tracker` field is threaded
explicitly through the engine instead of being stored in the request. -/
structure Request where
  unitaryTyp : GoType
  query : QueryK
  validator : ValidatorK
  collector : CollectorK
deriving DecidableEq

/-- Rendering of `query.String()`. -/
def QueryK.render : QueryK → String
  | .byType t => "<type~=" ++ t.id ++ ">"
  | .byName n => "<type~=" ++ n.typ.id ++ " & name=" ++ n.name ++ ">"

/-- Rendering of `validator.String()`. -/
def ValidatorK.render : ValidatorK → String
  | .uniqueMandatory => "<unique mandatory>"
  | .uniqueOptional => "<unique optional>"
  | .multiple => "<multiple>"

/-- Rendering of `collector.String()`. -/
def CollectorK.render : CollectorK → String
  | .unique => "<unique>"
  | .multipleAsSlice => "<multiple as slice>"
  | .multipleAsMap => "<multiple as map>"

/-- Rendering of `Request.String()`: `{q=%s v=%s c=%s}`. -/
def Request.render (r : Request) : String :=
  "\x7bq=" ++ r.query.render ++ " v=" ++ r.validator.render ++
    " c=" ++ r.collector.render ++ "\x7d"

/-- Embedding of the `Provider` capability set (part_002).  `pid` models Go
object identity, used by the instrumentation log that counts `Provide`
invocations. -/
structure Provider where
  pid : Nat
  canProvide : Name → Bool
  provide : Name → List Value → Except GoErr Value
  deps : List Request
  providableNames : List Name
  priority : Int

/-- Embedding of the `Decorator` capability set (part_010). -/
structure Decorator where
  forName : Name
  decorate : Value → List Value → Except GoErr Value
  deps : List Request
  priority : Int

/-- The read-only part of a `Resolver` during resolution: the provider list
(the `SortedCOWSlice` snapshot, highest priority first) and the per-name
decorator lists (each sorted lowest priority first). -/
structure Registry where
  providers : List Provider
  decorators : List (Name × List Decorator)

/-- The mutable part of a `Resolver`: the component store, plus an
instrumentation log recording each `Provide` invocation as
(provider id, requested name). -/
structure RState where
  store : List (Name × Value)
  log : List (Nat × Name)

/-- The decorator list registered for a name (`r.decorators.Load(name)`),
empty when absent. -/
def decoratorsFor (reg : Registry) (n : Name) : List Decorator :=
  match reg.decorators.find? (fun e => e.1 = n) with
  | some e => e.2
  | none => []

/-- Embedding of `queryResult` (query.go): either an already-stored component
or the responsible provider. -/
structure QueryResult where
  name : Name
  component : Option Value
  provider : Option Provider

/-- The basket loop of `queryByType.find`: for every provider (in list
order) and every providable name not yet claimed whose type matches, record
a result carrying the stored component if present, otherwise the provider.
The Go basket is a map iterated in unspecified order; we keep insertion
order. -/
def qbtAddNames (st : RState) (t : GoType) (p : Provider) :
    List Name → List (Name × QueryResult) → List (Name × QueryResult)
  | [], basket => basket
  | n :: ns, basket =>
    if (basket.find? (fun e => e.1 = n)).isNone && matchType t n.typ then
      qbtAddNames st t p ns
        (basket ++ [(n, ⟨n, storeGet st.store n, some p⟩)])
    else
      qbtAddNames st t p ns basket

/-- The provider loop of `queryByType.find`. -/
def qbtBasket (st : RState) (t : GoType) :
    List Provider → List (Name × QueryResult) → List (Name × QueryResult)
  | [], basket => basket
  | p :: ps, basket => qbtBasket st t ps (qbtAddNames st t p p.providableNames basket)

/-- Embedding of `query.find` (query.go, current version): `queryByName`
checks the store first, then the first provider whose `CanProvide` holds;
`queryByType` collects the basket.  This version of `find` never fails. -/
def queryFind (reg : Registry) (st : RState) : QueryK → List QueryResult
  | .byName n =>
    match storeGet st.store n with
    | some c => [⟨n, some c, none⟩]
    | none =>
      match reg.providers.find? (fun p => p.canProvide n) with
      | some p => [⟨n, none, some p⟩]
      | none => []
  | .byType t => (qbtBasket st t reg.providers []).map (fun e => e.2)

/-- Embedding of `validator.validate` (part_014). -/
def validate (v : ValidatorK) (results : List QueryResult) : Except GoErr Unit :=
  match v with
  | .uniqueMandatory =>
    if results.length = 0 then
      .error (.emsg ("no providers found for " ++ ValidatorK.uniqueMandatory.render))
    else if 1 < results.length then
      .error (.emsg ("multiple providers found for " ++ ValidatorK.uniqueMandatory.render))
    else .ok ()
  | .uniqueOptional =>
    if 1 < results.length then
      .error (.emsg ("multiple providers found for " ++ ValidatorK.uniqueOptional.render))
    else .ok ()
  | .multiple => .ok ()

/-! ## The resolution engine

`provideUsing` (part_024) recurses back into `resolve` through the
collectors.  The engine is stratified: every helper below is parametric in
the function `pu` used to instantiate a provider-carrying result, and
`provideUsingR` ties the knot, consuming one unit of fuel per nesting
level.  All helpers return the possibly-updated state alongside the result,
since in Go the store and the invocation log persist across errors. -/

/-- Shape of an instantiation function: state, provider, name, tracker. -/
def PU : Type :=
  RState → Provider → Name → Tracker → (Except GoErr Value) × RState

/-- The per-result step of the collectors: a result carrying a stored
component yields it directly; a result carrying a provider is instantiated
via `pu` (that is, `Resolver.provideUsing`). -/
def obtainW (pu : PU) (st : RState) (res : QueryResult) (tr : Tracker) :
    (Except GoErr Value) × RState :=
  match res.component with
  | some c => (.ok c, st)
  | none =>
    match res.provider with
    | some p => pu st p res.name tr
    | none => (.error (.emsg "query result carries neither component nor provider"), st)

/-- Modelled from the spec: `collectorMultipleAsSlice` is absent from the
sources (src/collector.go is a stale pre-tracker revision); per §4.8 it
builds a sequence with one entry per result, in iteration order, and per the
stale revision each instantiation error is wrapped with the
`failed to instantiate provider` context. -/
def collectSliceW (pu : PU) :
    RState → List QueryResult → Tracker → (Except GoErr (List Value)) × RState
  | st, [], _ => (.ok [], st)
  | st, res :: rest, tr =>
    match obtainW pu st res tr with
    | (.error e, st1) =>
      (.error (.wrap ("failed to instantiate provider " ++ res.name.render) e), st1)
    | (.ok v, st1) =>
      match collectSliceW pu st1 rest tr with
      | (.error e, st2) => (.error e, st2)
      | (.ok vs, st2) => (.ok (v :: vs), st2)

/-- Modelled from the spec: `collectorMultipleAsMap` is absent from the
sources; per §4.8 it builds a mapping from each component's `name` string to
its value and fails if two results share a name. -/
def collectMapW (pu : PU) :
    RState → List QueryResult → List (String × Value) → Tracker →
      (Except GoErr (List (String × Value))) × RState
  | st, [], acc, _ => (.ok acc, st)
  | st, res :: rest, acc, tr =>
    if acc.any (fun e => e.1 = res.name.name) then
      (.error (.emsg ("duplicate component name " ++ res.name.name ++
        " when collecting components as a map")), st)
    else
      match obtainW pu st res tr with
      | (.error e, st1) =>
        (.error (.wrap ("failed to instantiate provider " ++ res.name.render) e), st1)
      | (.ok v, st1) => collectMapW pu st1 rest (acc ++ [(res.name.name, v)]) tr

/-- Modelled from the spec: `collectorUnique` is absent from the sources;
per §4.8 it returns the single component, or `(invalid, found=false, nil)`
when the validator allowed zero results. -/
def collectW (pu : PU) (st : RState) (unitaryTyp : GoType) :
    CollectorK → List QueryResult → Tracker →
      (Except GoErr (Value × Bool)) × RState
  | .unique, [], _ => (.ok (Value.invalid, false), st)
  | .unique, res :: _, tr =>
    (match obtainW pu st res tr with
     | (.error e, st1) => (.error e, st1)
     | (.ok v, st1) => (.ok (v, true), st1))
  | .multipleAsSlice, results, tr =>
    (match collectSliceW pu st results tr with
     | (.error e, st1) => (.error e, st1)
     | (.ok vs, st1) => (.ok (Value.slice unitaryTyp vs, true), st1))
  | .multipleAsMap, results, tr =>
    (match collectMapW pu st results [] tr with
     | (.error e, st1) => (.error e, st1)
     | (.ok entries, st1) => (.ok (Value.mapv unitaryTyp entries, true), st1))

/-- Embedding of `Resolver.resolve` (resolver.go) for an already-determined
tracker: query, validate, collect. -/
def resolveW (reg : Registry) (pu : PU) (st : RState) (req : Request)
    (tr : Tracker) : (Except GoErr (Value × Bool)) × RState :=
  match validate req.validator (queryFind reg st req.query) with
  | .error e =>
    (.error (.wrap ("failed to validate results for request " ++ req.render) e), st)
  | .ok _ => collectW pu st req.unitaryTyp req.collector (queryFind reg st req.query) tr

/-- Embedding of `Resolver.resolveDependencies` (part_024): each request is
resolved under a fresh clone (`NewTrackerFrom`) of the tracker; the `found`
flag is discarded as in the Go code. -/
def resolveDepsW (reg : Registry) (pu : PU) :
    RState → List Request → Tracker → (Except GoErr (List Value)) × RState
  | st, [], _ => (.ok [], st)
  | st, req :: rest, tr =>
    match resolveW reg pu st req (trackerBranch tr) with
    | (.error e, st1) =>
      (.error (.wrap ("failed to resolve dependency " ++ req.render) e), st1)
    | (.ok (v, _), st1) =>
      match resolveDepsW reg pu st1 rest tr with
      | (.error e, st2) => (.error e, st2)
      | (.ok vs, st2) => (.ok (v :: vs), st2)

/-- The decorator loop of `provideUsing` (part_024): each decorator's own
dependencies are resolved under the shared tracker, then `Decorate` rebinds
the current component. -/
def decorateAllW (reg : Registry) (pu : PU) (name : Name) :
    RState → List Decorator → Value → Tracker → (Except GoErr Value) × RState
  | st, [], comp, _ => (.ok comp, st)
  | st, d :: ds, comp, tr =>
    match resolveDepsW reg pu st d.deps tr with
    | (.error e, st1) =>
      (.error (.wrap "failed to resolve dependencies for decorator" e), st1)
    | (.ok depVals, st1) =>
      match d.decorate comp depVals with
      | .error e =>
        (.error (.wrap ("failed to apply decorator to component " ++ name.render) e), st1)
      | .ok comp1 => decorateAllW reg pu name st1 ds comp1 tr

/-- Embedding of `Resolver.provideUsing` (part_024, current revision): push
the name on the tracker (failing on a cycle), re-check the store under the
per-name lock (a no-op sequentially), resolve the provider's dependencies,
invoke `Provide` (logged), apply the decorators for the name in list order,
pop the tracker and store the final component.  One unit of fuel is consumed
per nesting level. -/
def provideUsingR (reg : Registry) :
    Nat → RState → Provider → Name → Tracker → (Except GoErr Value) × RState
  | 0, st, _, _, _ => (.error (.emsg "out of fuel"), st)
  | fuel + 1, st, p, name, tr =>
    match trackerPush tr name with
    | .error e =>
      (.error (.wrap ("dependency cycle detected when trying to provide component " ++
        name.render) e), st)
    | .ok tr1 =>
      match storeGet st.store name with
      | some c => (.ok c, st)
      | none =>
        match resolveDepsW reg (provideUsingR reg fuel) st p.deps tr1 with
        | (.error e, st1) =>
          (.error (.wrap ("failed to resolve dependencies for provider to provide component " ++
            name.render) e), st1)
        | (.ok depVals, st1) =>
          match p.provide name depVals with
          | .error e =>
            (.error (.wrap ("failed to provide component " ++ name.render) e),
              ⟨st1.store, st1.log ++ [(p.pid, name)]⟩)
          | .ok comp =>
            match decorateAllW reg (provideUsingR reg fuel) name
                ⟨st1.store, st1.log ++ [(p.pid, name)]⟩
                (decoratorsFor reg name) comp tr1 with
            | (.error e, st3) => (.error e, st3)
            | (.ok comp2, st3) => (.ok comp2, ⟨storePut st3.store name comp2, st3.log⟩)

/-- Embedding of `Resolver.resolve` at a given fuel: a nil tracker is
replaced by a fresh one. -/
def resolveR (reg : Registry) (fuel : Nat) (st : RState) (req : Request)
    (trOpt : Option Tracker) : (Except GoErr (Value × Bool)) × RState :=
  resolveW reg (provideUsingR reg fuel) st req (trOpt.getD newTracker)

/-! ## Typed entry points (resolver.go) -/

/-- The request built by `Resolve[T]`. -/
def resolveReq (t : GoType) : Request :=
  ⟨t, .byType t, .uniqueMandatory, .unique⟩

/-- The request built by `ResolveNamed[T]`. -/
def resolveNamedReq (t : GoType) (nm : String) : Request :=
  ⟨t, .byName ⟨nm, t⟩, .uniqueMandatory, .unique⟩

/-- The request built by `ResolveAll[T]`. -/
def resolveAllReq (t : GoType) : Request :=
  ⟨t, .byType t, .multiple, .multipleAsSlice⟩

/-- The request built by `TryResolve[T]`. -/
def tryResolveReq (t : GoType) : Request :=
  ⟨t, .byType t, .uniqueOptional, .unique⟩

/-- The request built by `TryResolveNamed[T]`. -/
def tryResolveNamedReq (t : GoType) (nm : String) : Request :=
  ⟨t, .byName ⟨nm, t⟩, .uniqueOptional, .unique⟩

/-- Embedding of `resolveTyped`: run the resolution, wrap errors with the
request context, return the typed zero value when not found, and cast the
reflected value otherwise (`unReflect`); a failed cast surfaces with
`found = true` exactly as in the Go code.  `zero` stands for the zero value
of `T` and `castOk` for the `v.Interface().(T)` type assertion. -/
def resolveTypedR (reg : Registry) (fuel : Nat) (st : RState) (req : Request)
    (zero : Value) (castOk : Value → Bool) :
    (Value × Bool × Option GoErr) × RState :=
  match resolveR reg fuel st req none with
  | (.error e, st1) =>
    ((zero, false, some (.wrap ("failed to resolve request " ++ req.render) e)), st1)
  | (.ok (v, found), st1) =>
    if found then
      if castOk v then ((v, true, none), st1)
      else ((zero, true, some (.emsg "value is not of the requested type")), st1)
    else
      ((zero, false, none), st1)

/-- Embedding of `TryResolve[T]`. -/
def tryResolveR (reg : Registry) (fuel : Nat) (st : RState) (t : GoType)
    (zero : Value) (castOk : Value → Bool) :
    (Value × Bool × Option GoErr) × RState :=
  resolveTypedR reg fuel st (tryResolveReq t) zero castOk

/-! ## Factory-backed providers and decorators (part_004,
factory_method_decorator.go) -/

/-- Outcome of invoking a user factory body: a returned value, a returned
non-nil error, or a panic. -/
inductive FOutcome where
  | ok (v : Value) : FOutcome
  | fail (msg : String) : FOutcome
  | panik (msg : String) : FOutcome

/-- The data of a constructed `FactoryMethodProvider`: its `Name` (factory
symbol name or the `named` option, plus the declared return type), its
dependency requests, the factory body, and its priority. -/
structure FactoryMethod where
  name : Name
  deps : List Request
  fn : List Value → FOutcome
  priority : Int

/-- Embedding of `FactoryMethodProvider.CanProvide`. -/
def FactoryMethod.canProvide (f : FactoryMethod) (n : Name) : Bool :=
  n.name == f.name.name && matchType n.typ f.name.typ

/-- Embedding of `FactoryMethodProvider.Provide`: the factory is invoked
under a panic trap; a panic is converted to the
`panic calling provider for %s: %v` error, and a returned non-nil error is
surfaced as-is. -/
def FactoryMethod.provideImpl (f : FactoryMethod) (_n : Name)
    (depVals : List Value) : Except GoErr Value :=
  match f.fn depVals with
  | .ok v => .ok v
  | .fail m => .error (.emsg m)
  | .panik m =>
    .error (.emsg ("panic calling provider for " ++ f.name.render ++ ": " ++ m))

/-- Packaging of a `FactoryMethodProvider` as a `Provider`
(`ListProvidableNames` is the singleton of its name). -/
def FactoryMethod.toProvider (pid : Nat) (f : FactoryMethod) : Provider :=
  ⟨pid, f.canProvide, f.provideImpl, f.deps, [f.name], f.priority⟩

/-- The data of a constructed `FactoryMethodDecorator`: its `ForName` (the
`decorate` option plus the first parameter's type), the dependency requests
of its remaining parameters, the factory body, and its priority. -/
structure FactoryDecorator where
  name : Name
  deps : List Request
  fn : Value → List Value → FOutcome
  priority : Int

/-- Embedding of `FactoryMethodDecorator.Decorate`: same panic trap and
error discipline as the provider (the Go message reuses the word
`provider`). -/
def FactoryDecorator.decorateImpl (f : FactoryDecorator) (toDecorate : Value)
    (depVals : List Value) : Except GoErr Value :=
  match f.fn toDecorate depVals with
  | .ok v => .ok v
  | .fail m => .error (.emsg m)
  | .panik m =>
    .error (.emsg ("panic calling provider for " ++ f.name.render ++ ": " ++ m))

/-- Packaging of a `FactoryMethodDecorator` as a `Decorator`. -/
def FactoryDecorator.toDecorator (f : FactoryDecorator) : Decorator :=
  ⟨f.name, f.decorateImpl, f.deps, f.priority⟩

/-! ## Registration (resolver.go, part_013, condition.go) -/

/-- Embedding of `fn.ComparisonResult` via `Ordering`, and of
`compareByPriority`. -/
def cmpInt (a b : Int) : Ordering :=
  if a < b then .lt else if b < a then .gt else .eq

/-- The provider comparator `fn.ReverseComparator(compareByPriority)`. -/
def cmpProvider (a b : Provider) : Ordering := cmpInt b.priority a.priority

/-- The decorator comparator `compareByPriority` (not reversed: lowest
priority executes first). -/
def cmpDecorator (a b : Decorator) : Ordering := cmpInt a.priority b.priority

/-- Embedding of `SortedCOWSlice.Add`: insert at the first position `i` with
`comparator(current[i], item) != Less` (the `sort.Search` on a list kept
sorted by this very insertion is the first such position). -/
def cowAdd (cmp : α → α → Ordering) : List α → α → List α
  | [], item => [item]
  | x :: xs, item =>
    if cmp x item = .lt then x :: cowAdd cmp xs item else item :: x :: xs

/-- Embedding of `condition` (condition.go): the operator is one of the two
closures `equals` / `notEquals`. -/
structure Condition where
  namedStringComponent : String
  isEquals : Bool
  value : String
deriving DecidableEq

/-- The condition operator applied to the resolved string and the literal. -/
def condApply (c : Condition) (resolved : String) : Bool :=
  if c.isEquals then resolved == c.value else resolved != c.value

/-- Embedding of `Resolver.validateCondition`: resolve the named string
component as unique-optional; a resolution error or a missing component
makes the condition false, otherwise the operator decides. -/
def validateConditionR (reg : Registry) (fuel : Nat) (st : RState)
    (c : Condition) : Bool × RState :=
  match resolveR reg fuel st
      ⟨StringType, .byName ⟨c.namedStringComponent, StringType⟩,
        .uniqueOptional, .unique⟩ none with
  | (.error _, st1) => (false, st1)
  | (.ok (v, found), st1) =>
    if found then (condApply c v.asString, st1) else (false, st1)

/-- The condition loop of `Resolver.Register`: conditions are evaluated in
order until the first false one. -/
def validateCondsR (reg : Registry) (fuel : Nat) :
    RState → List Condition → Bool × RState
  | st, [] => (true, st)
  | st, c :: cs =>
    match validateConditionR reg fuel st c with
    | (true, st1) => validateCondsR reg fuel st1 cs
    | (false, st1) => (false, st1)

/-- The outcome of step 1 of `Resolver.Register`: the registrable was built
into a provider, built into a decorator, or rejected (a failed factory shape
check or an unsupported type). -/
inductive BuildOutcome where
  | asProvider (p : Provider) : BuildOutcome
  | asDecorator (d : Decorator) : BuildOutcome
  | buildErr (e : GoErr) : BuildOutcome

/-- Insertion of a decorator into the per-name decorator map
(`LoadOrStore` of a fresh sorted list, then `Add`). -/
def decoratorsAdd (m : List (Name × List Decorator)) (d : Decorator) :
    List (Name × List Decorator) :=
  match m with
  | [] => [(d.forName, cowAdd cmpDecorator [] d)]
  | (k, ds) :: rest =>
    if k = d.forName then (k, cowAdd cmpDecorator ds d) :: rest
    else (k, ds) :: decoratorsAdd rest d

/-- Embedding of `Resolver.Register` after the build step: evaluate the
conditions (a false one makes registration a silent no-op returning nil);
then insert into the provider list or the per-name decorator list. -/
def registerR (reg : Registry) (fuel : Nat) (st : RState) (b : BuildOutcome)
    (conds : List Condition) : (Except GoErr Registry) × RState :=
  match b with
  | .buildErr e => (.error (.wrap "failed to create factory method registrable" e), st)
  | .asProvider p =>
    match validateCondsR reg fuel st conds with
    | (false, st1) => (.ok reg, st1)
    | (true, st1) =>
      (.ok ⟨cowAdd cmpProvider reg.providers p, reg.decorators⟩, st1)
  | .asDecorator d =>
    match validateCondsR reg fuel st conds with
    | (false, st1) => (.ok reg, st1)
    | (true, st1) =>
      (.ok ⟨reg.providers, decoratorsAdd reg.decorators d⟩, st1)

/-- The Go type of `*Resolver`, which implements `Closeable` (it has a
`Close() error` method) and the `io.Closer` interface. -/
def resolverType : GoType := ⟨"*godi.Resolver", false, ["Closeable", "io.Closer"]⟩

/-- The stored representation of the resolver itself, as produced by
resolving the self-registered static provider. -/
def resolverValue : Value := Value.obj resolverType 0 (some none)

/-- Embedding of `New()`: an empty registry in which the resolver has
registered itself as the static zero-dependency provider named
`godi.resolver` (supplier.go `ToStaticProvider`). -/
def newResolverRegistry : Registry :=
  ⟨[FactoryMethod.toProvider 0
      ⟨⟨"godi.resolver", resolverType⟩, [], fun _ => .ok resolverValue, 0⟩], []⟩

/-- The initial mutable state of a fresh resolver: empty store, empty log. -/
def newRState : RState := ⟨[], []⟩

/-! ## General helper lemmas -/

theorem toList_append (s t : String) : (s ++ t).toList = s.toList ++ t.toList :=
  String.data_append s t

theorem strMentions_mid (a nm b : String) : StrMentions (a ++ nm ++ b) nm :=
  ⟨a.toList, b.toList, by simp [toList_append]⟩

theorem strMentions_panicMsg (n : Name) (m : String) :
    StrMentions ("panic calling provider for " ++ n.render ++ ": " ++ m) n.name :=
  ⟨"panic calling provider for ".toList ++ "(".toList,
    (", " ++ n.typ.id ++ ")").toList ++ ": ".toList ++ m.toList,
    by simp [toList_append, Name.render]⟩

/-! ## C10: Tracker.Pop -/

/-- C10: `Tracker.Pop` on an empty stack panics with the message
`tracker: pop from empty stack` (the panic is modelled as the error carrying
that message); on a non-empty stack it removes the top name from both the
stack and the visited set and returns that name. -/
theorem tracker_pop_spec :
    (∀ visited : List Name,
      trackerPop ⟨visited, []⟩ = .error "tracker: pop from empty stack") ∧
    (∀ (visited xs : List Name) (n : Name),
      trackerPop ⟨visited, xs ++ [n]⟩ =
        .ok (n, ⟨visited.filter (fun m => m ≠ n), xs⟩)) := by
  constructor
  · intro visited
    rfl
  · intro visited xs n
    simp only [trackerPop, List.getLast?_concat, List.dropLast_concat]

/-! ## C7: panic trapping in factory-backed providers and decorators -/

/-- C7: a panic raised by a factory or decorator body never unwinds past
`Provide` / `Decorate`: it is recovered at the call boundary and converted
into the returned error `panic calling provider for %s: %v`, whose message
carries the target `Name` (the provider's registered name, whose `name`
string equals the target's whenever `CanProvide` accepted it). -/
theorem factory_panics_are_trapped
    (f : FactoryMethod) (g : FactoryDecorator) (n : Name) (v : Value)
    (depVals : List Value) (msg : String)
    (hf : f.fn depVals = .panik msg) (hg : g.fn v depVals = .panik msg) :
    (f.provideImpl n depVals =
        .error (.emsg ("panic calling provider for " ++ f.name.render ++ ": " ++ msg)) ∧
      StrMentions ("panic calling provider for " ++ f.name.render ++ ": " ++ msg)
        f.name.name ∧
      (∀ m : Name, f.canProvide m = true → m.name = f.name.name)) ∧
    (g.decorateImpl v depVals =
        .error (.emsg ("panic calling provider for " ++ g.name.render ++ ": " ++ msg)) ∧
      StrMentions ("panic calling provider for " ++ g.name.render ++ ": " ++ msg)
        g.name.name) := by
  refine ⟨⟨?_, strMentions_panicMsg f.name msg, ?_⟩, ?_, strMentions_panicMsg g.name msg⟩
  · unfold FactoryMethod.provideImpl
    rw [hf]
  · intro m hm
    unfold FactoryMethod.canProvide at hm
    have := (Bool.and_eq_true _ _).mp hm
    exact beq_iff_eq.mp this.1
  · unfold FactoryDecorator.decorateImpl
    rw [hg]

/-- Witness for C7 at a concrete panicking factory and decorator. -/
theorem factory_panics_are_trapped_witness :
    (FactoryMethod.provideImpl
        ⟨⟨"svc", ⟨"*S", false, []⟩⟩, [], fun _ => .panik "boom", 0⟩
        ⟨"svc", ⟨"*S", false, []⟩⟩ [] =
      .error (.emsg ("panic calling provider for " ++
        (Name.mk "svc" ⟨"*S", false, []⟩).render ++ ": " ++ "boom"))) ∧
    (FactoryDecorator.decorateImpl
        ⟨⟨"svc", ⟨"*S", false, []⟩⟩, [], fun _ _ => .panik "boom", 0⟩
        Value.invalid [] =
      .error (.emsg ("panic calling provider for " ++
        (Name.mk "svc" ⟨"*S", false, []⟩).render ++ ": " ++ "boom"))) := by
  have h := factory_panics_are_trapped
    ⟨⟨"svc", ⟨"*S", false, []⟩⟩, [], fun _ => .panik "boom", 0⟩
    ⟨⟨"svc", ⟨"*S", false, []⟩⟩, [], fun _ _ => .panik "boom", 0⟩
    ⟨"svc", ⟨"*S", false, []⟩⟩ Value.invalid [] "boom" rfl rfl
  exact ⟨h.1.1, h.2.1⟩

/-! ## C6: Resolver.Close -/

theorem joinErrors_eq_none_iff (es : List GoErr) : joinErrors es = none ↔ es = [] := by
  cases es <;> simp [joinErrors]

theorem storeCloseRun_errs_nil_iff (store : List (Name × Value)) :
    (storeCloseRun store).2 = [] ↔
      ∀ p ∈ store, p.2.closeCap = none ∨ p.2.closeCap = some none := by
  induction store with
  | nil => simp [storeCloseRun]
  | cons hd tl ih =>
    obtain ⟨n, c⟩ := hd
    match hcap : c.closeCap with
    | none => simp [storeCloseRun, hcap, ih]
    | some none => simp [storeCloseRun, hcap, ih]
    | some (some m) => simp [storeCloseRun, hcap]

theorem storeCloseRun_invoked (store : List (Name × Value)) :
    (storeCloseRun store).1 =
      (store.filter (fun p => (p.2.closeCap).isSome)).map Prod.fst := by
  induction store with
  | nil => rfl
  | cons hd tl ih =>
    obtain ⟨n, c⟩ := hd
    match hcap : c.closeCap with
    | none => simp [storeCloseRun, hcap, ih]
    | some none => simp [storeCloseRun, hcap, ih]
    | some (some m) => simp [storeCloseRun, hcap, ih]

/-- C6 (amended): `Resolver.Close` delegates to the store's close loop, which
invokes the `Close()` capability on every stored component whose type exposes
it — the names on which `Close` is invoked are exactly the names of the
closeable entries, with no special case for the self-registered resolver —
and returns the join of the collected errors, which is nil exactly when no
stored closeable component fails (in particular when none is closeable). -/
theorem resolver_close_joins_all_errors (store : List (Name × Value)) :
    ((storeCloseRun store).1 =
        (store.filter (fun p => (p.2.closeCap).isSome)).map Prod.fst) ∧
    (storeClose store = none ↔
      ∀ p ∈ store, p.2.closeCap = none ∨ p.2.closeCap = some none) := by
  refine ⟨storeCloseRun_invoked store, ?_⟩
  unfold storeClose
  rw [joinErrors_eq_none_iff]
  exact storeCloseRun_errs_nil_iff store

/-- Witness for C6 at a concrete store: one closeable component failing with
a message, one non-closeable component. -/
theorem resolver_close_joins_all_errors_witness :
    ((storeCloseRun [(⟨"a", StringType⟩, Value.obj StringType 0 (some (some "bad"))),
        (⟨"b", StringType⟩, Value.obj StringType 1 none)]).1 =
      [⟨"a", StringType⟩]) ∧
    (storeClose [(⟨"b", StringType⟩, Value.obj StringType 1 none)] = none) := by
  constructor
  · exact (resolver_close_joins_all_errors _).1
  · exact (resolver_close_joins_all_errors
      [(⟨"b", StringType⟩, Value.obj StringType 1 none)]).2.mpr
      (by intro p hp; simp at hp; simp [hp, Value.closeCap])

/-- C6 counterexample: the close loop does not recognize the self-registered
resolver: a store holding the resolver component under the well-known
`godi.resolver` name has `Close` invoked on that entry like any other
closeable (its name appears in the invoked list, and its close error is
joined into the result rather than skipped). -/
theorem resolver_close_does_not_skip_resolver :
    ((storeCloseRun [(⟨"godi.resolver", resolverType⟩,
        Value.obj resolverType 0 (some (some "resolver close failed")))]).1 =
      [⟨"godi.resolver", resolverType⟩]) ∧
    (storeClose [(⟨"godi.resolver", resolverType⟩,
        Value.obj resolverType 0 (some (some "resolver close failed")))] =
      some (.joined [.wrap ("failed to close component " ++
        (Name.mk "godi.resolver" resolverType).render)
        (.emsg "resolver close failed")])) := by
  exact ⟨rfl, rfl⟩

/-! ## C4: provider preference under multiple registrations -/

/-- Descending priority order, the invariant of the provider list. -/
def ProvSortedDesc (ps : List Provider) : Prop :=
  List.Pairwise (fun a b => b.priority ≤ a.priority) ps

instance (l : List Provider) : Decidable (ProvSortedDesc l) := by
  unfold ProvSortedDesc
  infer_instance

/-- Unfolding of the comparator: `cmpProvider x p = .lt` states that the new
item has strictly smaller priority than the list element. -/
theorem cmpProvider_lt_iff (x p : Provider) :
    cmpProvider x p = Ordering.lt ↔ p.priority < x.priority := by
  unfold cmpProvider cmpInt
  by_cases h : p.priority < x.priority
  · simp [h]
  · by_cases h2 : x.priority < p.priority <;> simp [h, h2]

/-- `SortedCOWSlice.Add` splits the list: the new item lands before every
element of equal or lower priority and after every strictly-higher one. -/
theorem cowAdd_provider_split (l : List Provider) (p : Provider) :
    ∃ l1 l2, cowAdd cmpProvider l p = l1 ++ p :: l2 ∧
      (∀ x ∈ l1, p.priority < x.priority) ∧ l = l1 ++ l2 := by
  induction l with
  | nil =>
    refine ⟨[], [], rfl, ?_, rfl⟩
    intro x hx
    cases hx
  | cons x xs ih =>
    by_cases hlt : cmpProvider x p = Ordering.lt
    · obtain ⟨l1, l2, heq, hhi, hsplit⟩ := ih
      refine ⟨x :: l1, l2, ?_, ?_, by rw [List.cons_append, hsplit]⟩
      · simp [cowAdd, hlt, heq]
      · intro y hy
        rcases List.mem_cons.mp hy with rfl | hy'
        · exact (cmpProvider_lt_iff y p).mp hlt
        · exact hhi y hy'
    · refine ⟨[], x :: xs, ?_, ?_, rfl⟩
      · simp [cowAdd, hlt]
      · intro y hy
        cases hy

theorem cowAdd_provider_sorted (l : List Provider) (p : Provider)
    (h : ProvSortedDesc l) : ProvSortedDesc (cowAdd cmpProvider l p) := by
  induction l with
  | nil => simp [cowAdd, ProvSortedDesc]
  | cons x xs ih =>
    have hx := (List.pairwise_cons.mp h).1
    have hxs := (List.pairwise_cons.mp h).2
    by_cases hlt : cmpProvider x p = Ordering.lt
    · have hplt : p.priority < x.priority := (cmpProvider_lt_iff x p).mp hlt
      unfold ProvSortedDesc
      simp only [cowAdd, hlt, if_pos]
      rw [List.pairwise_cons]
      constructor
      · intro y hy
        obtain ⟨l1, l2, heq, _, hsplit⟩ := cowAdd_provider_split xs p
        rw [heq] at hy
        rcases List.mem_append.mp hy with hy1 | hy2
        · exact hx y (by rw [hsplit]; exact List.mem_append.mpr (Or.inl hy1))
        · rcases List.mem_cons.mp hy2 with rfl | hy3
          · exact le_of_lt hplt
          · exact hx y (by rw [hsplit]; exact List.mem_append.mpr (Or.inr hy3))
      · exact ih hxs
    · have hple : x.priority ≤ p.priority :=
        le_of_not_lt (fun hc => hlt ((cmpProvider_lt_iff x p).mpr hc))
      unfold ProvSortedDesc
      simp only [cowAdd, hlt, if_neg, if_false]
      rw [List.pairwise_cons]
      refine ⟨?_, h⟩
      intro y hy
      rcases List.mem_cons.mp hy with rfl | hy'
      · exact hple
      · exact le_trans (hx y hy') hple

/-- In a descending-sorted provider list, the first provider accepted by
`CanProvide` has maximal priority among all claimants. -/
theorem find_first_has_max_priority (n : Name) (ps : List Provider)
    (hs : ProvSortedDesc ps) (p : Provider)
    (hf : ps.find? (fun q => q.canProvide n) = some p) :
    ∀ q ∈ ps, q.canProvide n = true → q.priority ≤ p.priority := by
  induction ps with
  | nil => cases hf
  | cons x xs ih =>
    have hx := (List.pairwise_cons.mp hs).1
    have hxs := (List.pairwise_cons.mp hs).2
    cases hcan : x.canProvide n with
    | true =>
      simp only [List.find?_cons, hcan] at hf
      injection hf with hf
      subst hf
      intro q hq _
      rcases List.mem_cons.mp hq with rfl | hq'
      · exact le_refl _
      · exact hx q hq'
    | false =>
      simp only [List.find?_cons, hcan] at hf
      intro q hq hqc
      rcases List.mem_cons.mp hq with rfl | hq'
      · rw [hcan] at hqc; cases hqc
      · exact ih hxs hf q hq' hqc

theorem qbtAddNames_keys_invariant (st : RState) (t : GoType) (p : Provider)
    (names : List Name) (basket : List (Name × QueryResult))
    (hnd : (basket.map Prod.fst).Nodup)
    (hnm : ∀ e ∈ basket, e.2.name = e.1) :
    ((qbtAddNames st t p names basket).map Prod.fst).Nodup ∧
      ∀ e ∈ qbtAddNames st t p names basket, e.2.name = e.1 := by
  induction names generalizing basket with
  | nil => exact ⟨hnd, hnm⟩
  | cons n ns ih =>
    by_cases hc : ((basket.find? (fun e => e.1 = n)).isNone && matchType t n.typ) = true
    · simp only [qbtAddNames, hc, if_pos]
      apply ih
      · rw [List.map_append]
        simp only [List.map_cons, List.map_nil]
        refine List.Nodup.append hnd (List.nodup_singleton n) ?_
        intro a ha hb
        have hab : a = n := by simpa using hb
        have hfind : basket.find? (fun e => e.1 = n) = none := by
          have h1 : (basket.find? (fun e => e.1 = n)).isNone = true :=
            ((Bool.and_eq_true _ _).mp hc).1
          cases h : basket.find? (fun e => e.1 = n)
          · rfl
          · rw [h] at h1; cases h1
        obtain ⟨e, he, hen⟩ := List.mem_map.mp ha
        have hne := List.find?_eq_none.mp hfind e he
        rw [hen, hab] at hne
        simp at hne
      · intro e he
        rcases List.mem_append.mp he with h1 | h2
        · exact hnm e h1
        · have : e = (n, ⟨n, storeGet st.store n, some p⟩) := by simpa using h2
          rw [this]
    · simp only [qbtAddNames, hc, if_neg, if_false]
      exact ih basket hnd hnm

theorem qbtBasket_keys_invariant (st : RState) (t : GoType)
    (ps : List Provider) (basket : List (Name × QueryResult))
    (hnd : (basket.map Prod.fst).Nodup)
    (hnm : ∀ e ∈ basket, e.2.name = e.1) :
    ((qbtBasket st t ps basket).map Prod.fst).Nodup ∧
      ∀ e ∈ qbtBasket st t ps basket, e.2.name = e.1 := by
  induction ps generalizing basket with
  | nil => exact ⟨hnd, hnm⟩
  | cons p ps ih =>
    have h := qbtAddNames_keys_invariant st t p p.providableNames basket hnd hnm
    exact ih _ h.1 h.2

/-- `queryByType.find` returns at most one result per distinct `Name`. -/
theorem queryByType_names_nodup (reg : Registry) (st : RState) (t : GoType) :
    ((queryFind reg st (.byType t)).map (fun r => r.name)).Nodup := by
  have h := qbtBasket_keys_invariant st t reg.providers []
    (by simp) (by intro e he; cases he)
  have heq : (qbtBasket st t reg.providers []).map (fun e => e.2.name) =
      (qbtBasket st t reg.providers []).map Prod.fst := by
    apply List.map_congr_left
    intro e he
    exact h.2 e he
  show ((qbtBasket st t reg.providers []).map (fun e => e.2)).map (fun r => r.name) |>.Nodup
  rw [List.map_map]
  show ((qbtBasket st t reg.providers []).map (fun e => e.2.name)).Nodup
  rw [heq]
  exact h.1

/-- Scenario for C4: the `*NameSupplier` type. -/
def c4nsTyp : GoType := ⟨"*godi.NameSupplier", false, []⟩

/-- Scenario for C4: the shared name of the competing providers. -/
def c4name : Name := ⟨"lastName", c4nsTyp⟩

/-- Scenario for C4: first-registered provider (priority 0). -/
def c4p1 : Provider :=
  FactoryMethod.toProvider 1 ⟨c4name, [], fun _ => .ok (.strv "Peyrard"), 0⟩

/-- Scenario for C4: second-registered provider (priority 0). -/
def c4p2 : Provider :=
  FactoryMethod.toProvider 2 ⟨c4name, [], fun _ => .ok (.strv "Arshinov"), 0⟩

/-- Scenario for C4: a fresh resolver after registering `c4p1` then `c4p2`. -/
def c4reg : Registry :=
  match (registerR newResolverRegistry 5 newRState (.asProvider c4p1) []).1 with
  | .ok g1 =>
    (match (registerR g1 5 newRState (.asProvider c4p2) []).1 with
     | .ok g2 => g2
     | .error _ => g1)
  | .error _ => newResolverRegistry

/-- C4 counterexample: two providers registered under the same `Name` with
equal priority (first one producing `Peyrard`, second one `Arshinov`):
`Resolve` and `ResolveNamed` return the value of the provider registered
second, refuting "among providers of equal priority the one that was
registered first" (`ResolveAll` still sees a single result). -/
theorem equal_priority_prefers_last_registered :
    ((resolveR c4reg 5 newRState (resolveNamedReq c4nsTyp "lastName") none).1 =
      .ok (.strv "Arshinov", true)) ∧
    ((resolveR c4reg 5 newRState (resolveReq c4nsTyp) none).1 =
      .ok (.strv "Arshinov", true)) ∧
    ((resolveR c4reg 5 newRState (resolveAllReq c4nsTyp) none).1 =
      .ok (.slice c4nsTyp [.strv "Arshinov"], true)) := by
  exact ⟨rfl, rfl, rfl⟩

/-- C4 (amended): when several providers are registered under the same
`Name`, `Resolve`/`ResolveNamed` prefer the provider with the highest
priority — and among providers of equal priority the most recently
registered one, since `SortedCOWSlice.Add` inserts the new provider before
every equal-or-lower-priority entry — while `ResolveAll` still returns one
result per distinct `Name`.  Formally: (1) insertion keeps the list sorted
by descending priority; (2) insertion places the new provider before every
element whose priority does not strictly exceed it and after every strictly
higher one, preserving the rest of the list; (3) the provider chosen by
`queryByName.find` has maximal priority among all claimants; (4) the
`queryByType.find` result set underlying `ResolveAll` holds at most one
result per `Name`. -/
theorem provider_preference_spec :
    (∀ (l : List Provider) (p : Provider),
      ProvSortedDesc l → ProvSortedDesc (cowAdd cmpProvider l p)) ∧
    (∀ (l : List Provider) (p : Provider),
      ∃ l1 l2, cowAdd cmpProvider l p = l1 ++ p :: l2 ∧
        (∀ x ∈ l1, p.priority < x.priority) ∧ l = l1 ++ l2) ∧
    (∀ (reg : Registry) (st : RState) (n : Name) (p : Provider),
      ProvSortedDesc reg.providers →
      queryFind reg st (.byName n) = [⟨n, none, some p⟩] →
      ∀ q ∈ reg.providers, q.canProvide n = true → q.priority ≤ p.priority) ∧
    (∀ (reg : Registry) (st : RState) (t : GoType),
      ((queryFind reg st (.byType t)).map (fun r => r.name)).Nodup) := by
  refine ⟨cowAdd_provider_sorted, cowAdd_provider_split, ?_, queryByType_names_nodup⟩
  intro reg st n p hs hq
  cases hg : storeGet st.store n with
  | some c =>
    have : queryFind reg st (.byName n) = [⟨n, some c, none⟩] := by
      simp [queryFind, hg]
    rw [this] at hq
    simp at hq
  | none =>
    cases hf : reg.providers.find? (fun q => q.canProvide n) with
    | none =>
      have : queryFind reg st (.byName n) = [] := by
        simp [queryFind, hg, hf]
      rw [this] at hq
      cases hq
    | some q0 =>
      have : queryFind reg st (.byName n) = [⟨n, none, some q0⟩] := by
        simp [queryFind, hg, hf]
      rw [this] at hq
      simp only [List.cons.injEq, and_true, QueryResult.mk.injEq, true_and,
        Option.some.injEq] at hq
      subst hq
      exact find_first_has_max_priority n reg.providers hs q0 hf

/-- Witness for C4: the amended statement applied to the concrete
two-provider scenario: sortedness is preserved when inserting `c4p1` once
more, and the first-registered equal-priority provider's priority is bounded
by the chosen provider's. -/
theorem provider_preference_spec_witness :
    ProvSortedDesc (cowAdd cmpProvider c4reg.providers c4p1) ∧
    c4p1.priority ≤ c4p2.priority := by
  constructor
  · exact provider_preference_spec.1 c4reg.providers c4p1 (by decide)
  · exact provider_preference_spec.2.2.1 c4reg newRState c4name c4p2 (by decide) rfl
      c4p1 (List.Mem.tail _ (List.Mem.head _)) rfl

/-! ## C1: the store is written at most once per name -/

theorem storeGet_storePut (s : List (Name × Value)) (n : Name) (v : Value)
    (nm : Name) :
    storeGet (storePut s n v) nm = if nm = n then some v else storeGet s nm := by
  induction s with
  | nil =>
    by_cases h : nm = n
    · simp [storePut, storeGet, h]
    · simp [storePut, storeGet, h, Ne.symm h]
  | cons hd tl ih =>
    obtain ⟨k, w⟩ := hd
    by_cases hk : k = n
    · subst hk
      by_cases h : nm = k
      · simp [storePut, storeGet, h]
      · simp [storePut, storeGet, h, Ne.symm h]
    · by_cases h : k = nm
      · subst h
        simp [storePut, storeGet, hk, Ne.symm hk]
      · simp [storePut, storeGet, hk, h, ih]

/-- Store preservation property of an instantiation function: every entry
present on entry is still present, unchanged, on exit. -/
def PUPreserves (pu : PU) : Prop :=
  ∀ st p n tr nm v, storeGet st.store nm = some v →
    storeGet (pu st p n tr).2.store nm = some v

/-- In-flight names property of an instantiation function: a name recorded
in the tracker's visited set is never added to the store by the call. -/
def PUAvoids (pu : PU) : Prop :=
  ∀ st p n tr nm, tr.visited.contains nm = true → storeGet st.store nm = none →
    storeGet (pu st p n tr).2.store nm = none

theorem obtainW_preserves (pu : PU) (hp : PUPreserves pu) (st : RState)
    (res : QueryResult) (tr : Tracker) (nm : Name) (v : Value)
    (hv : storeGet st.store nm = some v) :
    storeGet (obtainW pu st res tr).2.store nm = some v := by
  unfold obtainW
  cases res.component with
  | some c => exact hv
  | none =>
    cases res.provider with
    | some p => exact hp st p res.name tr nm v hv
    | none => exact hv

theorem collectSliceW_preserves (pu : PU) (hp : PUPreserves pu)
    (results : List QueryResult) (st : RState) (tr : Tracker) (nm : Name)
    (v : Value) (hv : storeGet st.store nm = some v) :
    storeGet (collectSliceW pu st results tr).2.store nm = some v := by
  induction results generalizing st with
  | nil => exact hv
  | cons res rest ih =>
    unfold collectSliceW
    split
    next e st1 heq =>
      have := obtainW_preserves pu hp st res tr nm v hv
      rw [heq] at this
      exact this
    next w st1 heq =>
      have h1 : storeGet st1.store nm = some v := by
        have := obtainW_preserves pu hp st res tr nm v hv
        rw [heq] at this
        exact this
      split
      next e st2 heq2 =>
        have := ih st1 h1
        rw [heq2] at this
        exact this
      next ws st2 heq2 =>
        have := ih st1 h1
        rw [heq2] at this
        exact this

theorem collectMapW_preserves (pu : PU) (hp : PUPreserves pu)
    (results : List QueryResult) (st : RState) (acc : List (String × Value))
    (tr : Tracker) (nm : Name) (v : Value)
    (hv : storeGet st.store nm = some v) :
    storeGet (collectMapW pu st results acc tr).2.store nm = some v := by
  induction results generalizing st acc with
  | nil => exact hv
  | cons res rest ih =>
    unfold collectMapW
    by_cases hdup : acc.any (fun e => e.1 = res.name.name) = true
    · rw [if_pos hdup]
      exact hv
    · rw [if_neg hdup]
      split
      next e st1 heq =>
        have := obtainW_preserves pu hp st res tr nm v hv
        rw [heq] at this
        exact this
      next w st1 heq =>
        have h1 : storeGet st1.store nm = some v := by
          have := obtainW_preserves pu hp st res tr nm v hv
          rw [heq] at this
          exact this
        exact ih st1 _ h1

theorem collectW_preserves (pu : PU) (hp : PUPreserves pu) (st : RState)
    (uT : GoType) (ck : CollectorK) (results : List QueryResult) (tr : Tracker)
    (nm : Name) (v : Value) (hv : storeGet st.store nm = some v) :
    storeGet (collectW pu st uT ck results tr).2.store nm = some v := by
  cases ck with
  | unique =>
    cases results with
    | nil => exact hv
    | cons res rest =>
      show storeGet (match obtainW pu st res tr with
        | (.error e, st1) => ((.error e : Except GoErr (Value × Bool)), st1)
        | (.ok v, st1) => (.ok (v, true), st1)).2.store nm = some v
      split
      next e st1 heq =>
        have := obtainW_preserves pu hp st res tr nm v hv
        rw [heq] at this
        exact this
      next w st1 heq =>
        have := obtainW_preserves pu hp st res tr nm v hv
        rw [heq] at this
        exact this
  | multipleAsSlice =>
    show storeGet (match collectSliceW pu st results tr with
      | (.error e, st1) => ((.error e : Except GoErr (Value × Bool)), st1)
      | (.ok vs, st1) => (.ok (Value.slice uT vs, true), st1)).2.store nm = some v
    split
    next e st1 heq =>
      have := collectSliceW_preserves pu hp results st tr nm v hv
      rw [heq] at this
      exact this
    next ws st1 heq =>
      have := collectSliceW_preserves pu hp results st tr nm v hv
      rw [heq] at this
      exact this
  | multipleAsMap =>
    show storeGet (match collectMapW pu st results [] tr with
      | (.error e, st1) => ((.error e : Except GoErr (Value × Bool)), st1)
      | (.ok entries, st1) => (.ok (Value.mapv uT entries, true), st1)).2.store nm = some v
    split
    next e st1 heq =>
      have := collectMapW_preserves pu hp results st [] tr nm v hv
      rw [heq] at this
      exact this
    next es st1 heq =>
      have := collectMapW_preserves pu hp results st [] tr nm v hv
      rw [heq] at this
      exact this

theorem resolveW_preserves (reg : Registry) (pu : PU) (hp : PUPreserves pu)
    (st : RState) (req : Request) (tr : Tracker) (nm : Name) (v : Value)
    (hv : storeGet st.store nm = some v) :
    storeGet (resolveW reg pu st req tr).2.store nm = some v := by
  unfold resolveW
  split
  next e heq => exact hv
  next u heq => exact collectW_preserves pu hp st _ _ _ tr nm v hv

theorem resolveDepsW_preserves (reg : Registry) (pu : PU) (hp : PUPreserves pu)
    (reqs : List Request) (st : RState) (tr : Tracker) (nm : Name) (v : Value)
    (hv : storeGet st.store nm = some v) :
    storeGet (resolveDepsW reg pu st reqs tr).2.store nm = some v := by
  induction reqs generalizing st with
  | nil => exact hv
  | cons req rest ih =>
    unfold resolveDepsW
    split
    next e st1 heq =>
      have := resolveW_preserves reg pu hp st req (trackerBranch tr) nm v hv
      rw [heq] at this
      exact this
    next w found st1 heq =>
      have h1 : storeGet st1.store nm = some v := by
        have := resolveW_preserves reg pu hp st req (trackerBranch tr) nm v hv
        rw [heq] at this
        exact this
      split
      next e st2 heq2 =>
        have := ih st1 h1
        rw [heq2] at this
        exact this
      next ws st2 heq2 =>
        have := ih st1 h1
        rw [heq2] at this
        exact this

theorem decorateAllW_preserves (reg : Registry) (pu : PU) (hp : PUPreserves pu)
    (name : Name) (ds : List Decorator) (st : RState) (comp : Value)
    (tr : Tracker) (nm : Name) (v : Value)
    (hv : storeGet st.store nm = some v) :
    storeGet (decorateAllW reg pu name st ds comp tr).2.store nm = some v := by
  induction ds generalizing st comp with
  | nil => exact hv
  | cons d rest ih =>
    unfold decorateAllW
    split
    next e st1 heq =>
      have := resolveDepsW_preserves reg pu hp d.deps st tr nm v hv
      rw [heq] at this
      exact this
    next depVals st1 heq =>
      have h1 : storeGet st1.store nm = some v := by
        have := resolveDepsW_preserves reg pu hp d.deps st tr nm v hv
        rw [heq] at this
        exact this
      split
      next e heq2 => exact h1
      next comp1 heq2 => exact ih st1 comp1 h1

theorem obtainW_avoids (pu : PU) (hp : PUAvoids pu) (st : RState)
    (res : QueryResult) (tr : Tracker) (nm : Name)
    (hm : tr.visited.contains nm = true) (hv : storeGet st.store nm = none) :
    storeGet (obtainW pu st res tr).2.store nm = none := by
  unfold obtainW
  cases res.component with
  | some c => exact hv
  | none =>
    cases res.provider with
    | some p => exact hp st p res.name tr nm hm hv
    | none => exact hv

theorem collectSliceW_avoids (pu : PU) (hp : PUAvoids pu)
    (results : List QueryResult) (st : RState) (tr : Tracker) (nm : Name)
    (hm : tr.visited.contains nm = true) (hv : storeGet st.store nm = none) :
    storeGet (collectSliceW pu st results tr).2.store nm = none := by
  induction results generalizing st with
  | nil => exact hv
  | cons res rest ih =>
    unfold collectSliceW
    split
    next e st1 heq =>
      have := obtainW_avoids pu hp st res tr nm hm hv
      rw [heq] at this
      exact this
    next w st1 heq =>
      have h1 : storeGet st1.store nm = none := by
        have := obtainW_avoids pu hp st res tr nm hm hv
        rw [heq] at this
        exact this
      split
      next e st2 heq2 =>
        have := ih st1 h1
        rw [heq2] at this
        exact this
      next ws st2 heq2 =>
        have := ih st1 h1
        rw [heq2] at this
        exact this

theorem collectMapW_avoids (pu : PU) (hp : PUAvoids pu)
    (results : List QueryResult) (st : RState) (acc : List (String × Value))
    (tr : Tracker) (nm : Name)
    (hm : tr.visited.contains nm = true) (hv : storeGet st.store nm = none) :
    storeGet (collectMapW pu st results acc tr).2.store nm = none := by
  induction results generalizing st acc with
  | nil => exact hv
  | cons res rest ih =>
    unfold collectMapW
    by_cases hdup : acc.any (fun e => e.1 = res.name.name) = true
    · rw [if_pos hdup]
      exact hv
    · rw [if_neg hdup]
      split
      next e st1 heq =>
        have := obtainW_avoids pu hp st res tr nm hm hv
        rw [heq] at this
        exact this
      next w st1 heq =>
        have h1 : storeGet st1.store nm = none := by
          have := obtainW_avoids pu hp st res tr nm hm hv
          rw [heq] at this
          exact this
        exact ih st1 _ h1

theorem collectW_avoids (pu : PU) (hp : PUAvoids pu) (st : RState)
    (uT : GoType) (ck : CollectorK) (results : List QueryResult) (tr : Tracker)
    (nm : Name)
    (hm : tr.visited.contains nm = true) (hv : storeGet st.store nm = none) :
    storeGet (collectW pu st uT ck results tr).2.store nm = none := by
  cases ck with
  | unique =>
    cases results with
    | nil => exact hv
    | cons res rest =>
      show storeGet (match obtainW pu st res tr with
        | (.error e, st1) => ((.error e : Except GoErr (Value × Bool)), st1)
        | (.ok v, st1) => (.ok (v, true), st1)).2.store nm = none
      split
      next e st1 heq =>
        have := obtainW_avoids pu hp st res tr nm hm hv
        rw [heq] at this
        exact this
      next w st1 heq =>
        have := obtainW_avoids pu hp st res tr nm hm hv
        rw [heq] at this
        exact this
  | multipleAsSlice =>
    show storeGet (match collectSliceW pu st results tr with
      | (.error e, st1) => ((.error e : Except GoErr (Value × Bool)), st1)
      | (.ok vs, st1) => (.ok (Value.slice uT vs, true), st1)).2.store nm = none
    split
    next e st1 heq =>
      have := collectSliceW_avoids pu hp results st tr nm hm hv
      rw [heq] at this
      exact this
    next ws st1 heq =>
      have := collectSliceW_avoids pu hp results st tr nm hm hv
      rw [heq] at this
      exact this
  | multipleAsMap =>
    show storeGet (match collectMapW pu st results [] tr with
      | (.error e, st1) => ((.error e : Except GoErr (Value × Bool)), st1)
      | (.ok entries, st1) => (.ok (Value.mapv uT entries, true), st1)).2.store nm = none
    split
    next e st1 heq =>
      have := collectMapW_avoids pu hp results st [] tr nm hm hv
      rw [heq] at this
      exact this
    next es st1 heq =>
      have := collectMapW_avoids pu hp results st [] tr nm hm hv
      rw [heq] at this
      exact this

theorem resolveW_avoids (reg : Registry) (pu : PU) (hp : PUAvoids pu)
    (st : RState) (req : Request) (tr : Tracker) (nm : Name)
    (hm : tr.visited.contains nm = true) (hv : storeGet st.store nm = none) :
    storeGet (resolveW reg pu st req tr).2.store nm = none := by
  unfold resolveW
  split
  next e heq => exact hv
  next u heq => exact collectW_avoids pu hp st _ _ _ tr nm hm hv

theorem resolveDepsW_avoids (reg : Registry) (pu : PU) (hp : PUAvoids pu)
    (reqs : List Request) (st : RState) (tr : Tracker) (nm : Name)
    (hm : tr.visited.contains nm = true) (hv : storeGet st.store nm = none) :
    storeGet (resolveDepsW reg pu st reqs tr).2.store nm = none := by
  induction reqs generalizing st with
  | nil => exact hv
  | cons req rest ih =>
    unfold resolveDepsW
    split
    next e st1 heq =>
      have := resolveW_avoids reg pu hp st req (trackerBranch tr) nm hm hv
      rw [heq] at this
      exact this
    next w found st1 heq =>
      have h1 : storeGet st1.store nm = none := by
        have := resolveW_avoids reg pu hp st req (trackerBranch tr) nm hm hv
        rw [heq] at this
        exact this
      split
      next e st2 heq2 =>
        have := ih st1 h1
        rw [heq2] at this
        exact this
      next ws st2 heq2 =>
        have := ih st1 h1
        rw [heq2] at this
        exact this

theorem decorateAllW_avoids (reg : Registry) (pu : PU) (hp : PUAvoids pu)
    (name : Name) (ds : List Decorator) (st : RState) (comp : Value)
    (tr : Tracker) (nm : Name)
    (hm : tr.visited.contains nm = true) (hv : storeGet st.store nm = none) :
    storeGet (decorateAllW reg pu name st ds comp tr).2.store nm = none := by
  induction ds generalizing st comp with
  | nil => exact hv
  | cons d rest ih =>
    unfold decorateAllW
    split
    next e st1 heq =>
      have := resolveDepsW_avoids reg pu hp d.deps st tr nm hm hv
      rw [heq] at this
      exact this
    next depVals st1 heq =>
      have h1 : storeGet st1.store nm = none := by
        have := resolveDepsW_avoids reg pu hp d.deps st tr nm hm hv
        rw [heq] at this
        exact this
      split
      next e heq2 => exact h1
      next comp1 heq2 => exact ih st1 comp1 h1

/-- Inversion of a successful `trackerPush`. -/
theorem trackerPush_ok_inv (t : Tracker) (n : Name) (t1 : Tracker)
    (h : trackerPush t n = .ok t1) :
    t.visited.contains n = false ∧ t1 = ⟨n :: t.visited, t.stack ++ [n]⟩ := by
  unfold trackerPush at h
  by_cases hc : t.visited.contains n
  · rw [if_pos hc] at h
    cases h
  · rw [if_neg hc] at h
    injection h with h
    exact ⟨Bool.not_eq_true _ ▸ (by simpa using hc), h.symm⟩

theorem provideUsingR_avoids (reg : Registry) (fuel : Nat) :
    PUAvoids (provideUsingR reg fuel) := by
  induction fuel with
  | zero =>
    intro st p n tr nm hm hv
    exact hv
  | succ fuel ih =>
    intro st p n tr nm hm hv
    unfold provideUsingR
    split
    next e heq => exact hv
    next tr1 heq =>
      obtain ⟨hnotin, htr1⟩ := trackerPush_ok_inv tr n tr1 heq
      have hm1 : tr1.visited.contains nm = true := by
        rw [htr1]
        simp only [List.contains_cons]
        rw [hm]
        simp
      have hne : ¬ nm = n := by
        intro hcontra
        rw [hcontra] at hm
        rw [hm] at hnotin
        cases hnotin
      cases hg : storeGet st.store n with
      | some c => simp only [hg]; exact hv
      | none =>
        simp only [hg]
        split
        next e st1 heq2 =>
          have := resolveDepsW_avoids reg _ ih p.deps st tr1 nm hm1 hv
          rw [heq2] at this
          exact this
        next depVals st1 heq2 =>
          have h1 : storeGet st1.store nm = none := by
            have := resolveDepsW_avoids reg _ ih p.deps st tr1 nm hm1 hv
            rw [heq2] at this
            exact this
          split
          next e heq3 => exact h1
          next comp heq3 =>
            split
            next e st3 heq4 =>
              have := decorateAllW_avoids reg _ ih n (decoratorsFor reg n)
                ⟨st1.store, st1.log ++ [(p.pid, n)]⟩ comp tr1 nm hm1 h1
              rw [heq4] at this
              exact this
            next comp2 st3 heq4 =>
              have h3 : storeGet st3.store nm = none := by
                have := decorateAllW_avoids reg _ ih n (decoratorsFor reg n)
                  ⟨st1.store, st1.log ++ [(p.pid, n)]⟩ comp tr1 nm hm1 h1
                rw [heq4] at this
                exact this
              show storeGet (storePut st3.store n comp2) nm = none
              rw [storeGet_storePut]
              simp [hne, h3]

theorem provideUsingR_preserves (reg : Registry) (fuel : Nat) :
    PUPreserves (provideUsingR reg fuel) := by
  induction fuel with
  | zero =>
    intro st p n tr nm v hv
    exact hv
  | succ fuel ih =>
    intro st p n tr nm v hv
    unfold provideUsingR
    split
    next e heq => exact hv
    next tr1 heq =>
      cases hg : storeGet st.store n with
      | some c => simp only [hg]; exact hv
      | none =>
        simp only [hg]
        split
        next e st1 heq2 =>
          have := resolveDepsW_preserves reg _ ih p.deps st tr1 nm v hv
          rw [heq2] at this
          exact this
        next depVals st1 heq2 =>
          have h1 : storeGet st1.store nm = some v := by
            have := resolveDepsW_preserves reg _ ih p.deps st tr1 nm v hv
            rw [heq2] at this
            exact this
          split
          next e heq3 => exact h1
          next comp heq3 =>
            split
            next e st3 heq4 =>
              have := decorateAllW_preserves reg _ ih n (decoratorsFor reg n)
                ⟨st1.store, st1.log ++ [(p.pid, n)]⟩ comp tr1 nm v h1
              rw [heq4] at this
              exact this
            next comp2 st3 heq4 =>
              have h3 : storeGet st3.store nm = some v := by
                have := decorateAllW_preserves reg _ ih n (decoratorsFor reg n)
                  ⟨st1.store, st1.log ++ [(p.pid, n)]⟩ comp tr1 nm v h1
                rw [heq4] at this
                exact this
              show storeGet (storePut st3.store n comp2) nm = some v
              rw [storeGet_storePut]
              by_cases hnm : nm = n
              · subst hnm
                rw [hv] at hg
                cases hg
              · simp [hnm, h3]

/-- Store hit inside `provideUsing`: when the component is already stored
(and the name is not on the current resolution path), the stored value is
returned as-is, with no state change at all — in particular `Provide` is not
invoked (the log is unchanged). -/
theorem provideUsing_store_hit (reg : Registry) (fuel : Nat) (st : RState)
    (p : Provider) (n : Name) (tr : Tracker) (v : Value)
    (hnv : tr.visited.contains n = false) (hv : storeGet st.store n = some v) :
    provideUsingR reg (fuel + 1) st p n tr = (.ok v, st) := by
  have hnmem : n ∉ tr.visited := by simpa using hnv
  have hpush : trackerPush tr n = .ok ⟨n :: tr.visited, tr.stack ++ [n]⟩ := by
    simp [trackerPush, hnmem]
  unfold provideUsingR
  split
  next e heq =>
    rw [hpush] at heq
    cases heq
  next tr1 heq =>
    rw [hv]

/-- A top-level `ResolveNamed` of an already-stored name short-circuits in
`queryByName.find` and returns the stored value unchanged. -/
theorem resolveR_named_stored (reg : Registry) (fuel : Nat) (st : RState)
    (t : GoType) (nm : String) (v : Value)
    (hv : storeGet st.store ⟨nm, t⟩ = some v) :
    resolveR reg fuel st (resolveNamedReq t nm) none = (.ok (v, true), st) := by
  have hq : queryFind reg st (.byName ⟨nm, t⟩) = [⟨⟨nm, t⟩, some v, none⟩] := by
    simp [queryFind, hv]
  unfold resolveR resolveW resolveNamedReq
  dsimp only
  rw [hq]
  simp [validate, collectW, obtainW]

/-- Scenario for C1: the provided type. -/
def c1svcTyp : GoType := ⟨"*godi.TestService", false, []⟩

/-- Scenario for C1: the name of the failing provider. -/
def c1name : Name := ⟨"NewFailingProvider", c1svcTyp⟩

/-- Scenario for C1: a factory-backed provider whose factory always returns
a non-nil error (`NewFailingProvider` from the resolver tests). -/
def c1fail : Provider :=
  FactoryMethod.toProvider 3
    ⟨c1name, [], fun _ => .fail "provider intentionally failed", 0⟩

/-- Scenario for C1: a fresh resolver with the failing provider registered. -/
def c1reg : Registry :=
  match (registerR newResolverRegistry 5 newRState (.asProvider c1fail) []).1 with
  | .ok g => g
  | .error _ => newResolverRegistry

/-- Scenario for C1: state after the first (failed) resolution. -/
def c1st1 : RState := (resolveR c1reg 5 newRState (resolveReq c1svcTyp) none).2

/-- Scenario for C1: state after the second (failed) resolution. -/
def c1st2 : RState := (resolveR c1reg 5 c1st1 (resolveReq c1svcTyp) none).2

/-- C1 counterexample: a factory that fails stores nothing, so a second
resolution invokes the provider's factory again — the invocation log holds
two `Provide` calls for the same name after two resolutions, refuting
"the provider's underlying factory for n is invoked at most once over the
resolver's lifetime". -/
theorem failing_factory_invoked_twice :
    c1st2.log = [(3, c1name), (3, c1name)] ∧
    storeGet c1st2.store c1name = none := by
  exact ⟨by decide, rfl⟩

/-- C1 (amended): once a component value has been stored under a name, it is
never overwritten or removed: (1) `provideUsing` re-checks the store (under
the per-name lock) and returns the stored value with no state change — in
particular without invoking `Provide`; (2) a top-level `ResolveNamed` of a
stored name returns the stored value unchanged; (3) every entry present
before any resolution is still present, with the same value, afterwards;
(4) a name on the current resolution path (tracked as visited) is never
added to the store by the sub-resolution, so the final `Put` of a
construction never overwrites a concurrently produced entry.  The factory is
therefore invoked at most once *successfully*; a resolution that fails
(factory error/panic or decorator failure) stores nothing and the factory
may be invoked again by a later resolution. -/
theorem store_write_once_spec :
    (∀ (reg : Registry) (fuel : Nat) (st : RState) (p : Provider) (n : Name)
        (tr : Tracker) (v : Value),
      tr.visited.contains n = false → storeGet st.store n = some v →
      provideUsingR reg (fuel + 1) st p n tr = (.ok v, st)) ∧
    (∀ (reg : Registry) (fuel : Nat) (st : RState) (t : GoType) (nm : String)
        (v : Value),
      storeGet st.store ⟨nm, t⟩ = some v →
      resolveR reg fuel st (resolveNamedReq t nm) none = (.ok (v, true), st)) ∧
    (∀ (reg : Registry) (fuel : Nat) (st : RState) (req : Request)
        (trOpt : Option Tracker) (nm : Name) (v : Value),
      storeGet st.store nm = some v →
      storeGet (resolveR reg fuel st req trOpt).2.store nm = some v) ∧
    (∀ (reg : Registry) (fuel : Nat) (st : RState) (p : Provider) (n : Name)
        (tr : Tracker) (nm : Name),
      tr.visited.contains nm = true → storeGet st.store nm = none →
      storeGet (provideUsingR reg fuel st p n tr).2.store nm = none) := by
  refine ⟨provideUsing_store_hit, resolveR_named_stored, ?_, ?_⟩
  · intro reg fuel st req trOpt nm v hv
    exact resolveW_preserves reg _ (provideUsingR_preserves reg fuel) st req _ nm v hv
  · intro reg fuel st p n tr nm hm hv
    exact provideUsingR_avoids reg fuel st p n tr nm hm hv

/-- Witness for C1: the amended statement applied to a concrete state in
which the failing provider's name is already bound to a value: the value is
returned as-is by both `provideUsing` and a top-level `ResolveNamed`, with
no further factory invocation. -/
theorem store_write_once_spec_witness :
    (provideUsingR c1reg 4 ⟨[(c1name, .strv "v1")], []⟩ c1fail c1name newTracker =
      (.ok (.strv "v1"), ⟨[(c1name, .strv "v1")], []⟩)) ∧
    (resolveR c1reg 5 ⟨[(c1name, .strv "v1")], []⟩
        (resolveNamedReq c1svcTyp "NewFailingProvider") none =
      (.ok (.strv "v1", true), ⟨[(c1name, .strv "v1")], []⟩)) := by
  constructor
  · exact store_write_once_spec.1 c1reg 3 ⟨[(c1name, .strv "v1")], []⟩ c1fail c1name
      newTracker (.strv "v1") rfl rfl
  · exact store_write_once_spec.2.1 c1reg 5 ⟨[(c1name, .strv "v1")], []⟩ c1svcTyp
      "NewFailingProvider" (.strv "v1") rfl

/-! ## C3: decorator ordering and composition -/

/-- Ascending priority order, the invariant of each per-name decorator
list. -/
def DecSortedAsc (ds : List Decorator) : Prop :=
  List.Pairwise (fun a b => a.priority ≤ b.priority) ds

instance (l : List Decorator) : Decidable (DecSortedAsc l) := by
  unfold DecSortedAsc
  infer_instance

theorem cmpDecorator_lt_iff (x d : Decorator) :
    cmpDecorator x d = Ordering.lt ↔ x.priority < d.priority := by
  unfold cmpDecorator cmpInt
  by_cases h : x.priority < d.priority
  · simp [h]
  · by_cases h2 : d.priority < x.priority <;> simp [h, h2]

/-- `Add` on a decorator list places the new decorator before every element
of equal or higher priority and after every strictly lower one. -/
theorem cowAdd_decorator_split (l : List Decorator) (d : Decorator) :
    ∃ l1 l2, cowAdd cmpDecorator l d = l1 ++ d :: l2 ∧
      (∀ x ∈ l1, x.priority < d.priority) ∧ l = l1 ++ l2 := by
  induction l with
  | nil =>
    refine ⟨[], [], rfl, ?_, rfl⟩
    intro x hx
    cases hx
  | cons x xs ih =>
    by_cases hlt : cmpDecorator x d = Ordering.lt
    · obtain ⟨l1, l2, heq, hlo, hsplit⟩ := ih
      refine ⟨x :: l1, l2, ?_, ?_, by rw [List.cons_append, hsplit]⟩
      · simp [cowAdd, hlt, heq]
      · intro y hy
        rcases List.mem_cons.mp hy with rfl | hy'
        · exact (cmpDecorator_lt_iff y d).mp hlt
        · exact hlo y hy'
    · refine ⟨[], x :: xs, ?_, ?_, rfl⟩
      · simp [cowAdd, hlt]
      · intro y hy
        cases hy

theorem cowAdd_decorator_sorted (l : List Decorator) (d : Decorator)
    (h : DecSortedAsc l) : DecSortedAsc (cowAdd cmpDecorator l d) := by
  induction l with
  | nil => simp [cowAdd, DecSortedAsc]
  | cons x xs ih =>
    have hx := (List.pairwise_cons.mp h).1
    have hxs := (List.pairwise_cons.mp h).2
    by_cases hlt : cmpDecorator x d = Ordering.lt
    · have hplt : x.priority < d.priority := (cmpDecorator_lt_iff x d).mp hlt
      unfold DecSortedAsc
      simp only [cowAdd, hlt, if_pos]
      rw [List.pairwise_cons]
      constructor
      · intro y hy
        obtain ⟨l1, l2, heq, _, hsplit⟩ := cowAdd_decorator_split xs d
        rw [heq] at hy
        rcases List.mem_append.mp hy with hy1 | hy2
        · exact hx y (by rw [hsplit]; exact List.mem_append.mpr (Or.inl hy1))
        · rcases List.mem_cons.mp hy2 with rfl | hy3
          · exact le_of_lt hplt
          · exact hx y (by rw [hsplit]; exact List.mem_append.mpr (Or.inr hy3))
      · exact ih hxs
    · have hple : d.priority ≤ x.priority :=
        le_of_not_lt (fun hc => hlt ((cmpDecorator_lt_iff x d).mpr hc))
      unfold DecSortedAsc
      simp only [cowAdd, hlt, if_neg, if_false]
      rw [List.pairwise_cons]
      refine ⟨?_, h⟩
      intro y hy
      rcases List.mem_cons.mp hy with rfl | hy'
      · exact hple
      · exact le_trans hple (hx y hy')

/-- Registering a decorator inserts it, via `Add`, into the list held for
its `ForName`, leaving other names untouched. -/
theorem decoratorsFor_add_same (ps : List Provider)
    (m : List (Name × List Decorator)) (d : Decorator) :
    decoratorsFor ⟨ps, decoratorsAdd m d⟩ d.forName =
      cowAdd cmpDecorator (decoratorsFor ⟨ps, m⟩ d.forName) d := by
  induction m with
  | nil => simp [decoratorsAdd, decoratorsFor]
  | cons e rest ih =>
    obtain ⟨k, ds⟩ := e
    by_cases hk : k = d.forName
    · subst hk
      simp [decoratorsAdd, decoratorsFor]
    · simp [decoratorsAdd, decoratorsFor, hk] at ih ⊢
      exact ih

theorem decoratorsFor_add_other (ps : List Provider)
    (m : List (Name × List Decorator)) (d : Decorator) (n : Name)
    (h : n ≠ d.forName) :
    decoratorsFor ⟨ps, decoratorsAdd m d⟩ n = decoratorsFor ⟨ps, m⟩ n := by
  induction m with
  | nil => simp [decoratorsAdd, decoratorsFor, Ne.symm h]
  | cons e rest ih =>
    obtain ⟨k, ds⟩ := e
    by_cases hk : k = d.forName
    · subst hk
      simp [decoratorsAdd, decoratorsFor, Ne.symm h]
    · by_cases hkn : k = n
      · subst hkn
        simp [decoratorsAdd, decoratorsFor, hk]
      · simp [decoratorsAdd, decoratorsFor, hk, hkn] at ih ⊢
        exact ih

/-- The decorator loop applies dependency-free pure decorators left to
right: the result is the left fold of the list over the base component, each
decorator observing the output of the previous one. -/
theorem decorateAllW_pure_fold (reg : Registry) (pu : PU) (name : Name)
    (ds : List Decorator) (st : RState) (base : Value) (tr : Tracker)
    (app : Decorator → Value → Value)
    (h : ∀ d ∈ ds, d.deps = [] ∧ ∀ v, d.decorate v [] = .ok (app d v)) :
    decorateAllW reg pu name st ds base tr =
      (.ok (ds.foldl (fun v d => app d v) base), st) := by
  induction ds generalizing st base with
  | nil => rfl
  | cons d rest ih =>
    have hd := h d (List.mem_cons_self d rest)
    have hdeps : resolveDepsW reg pu st d.deps tr = (.ok [], st) := by
      rw [hd.1]
      rfl
    unfold decorateAllW
    rw [hdeps]
    show (match d.decorate base [] with
      | .error e =>
        ((.error (.wrap ("failed to apply decorator to component " ++ name.render) e) :
          Except GoErr Value), st)
      | .ok comp1 => decorateAllW reg pu name st rest comp1 tr) =
      (.ok ((d :: rest).foldl (fun v d => app d v) base), st)
    rw [hd.2 base]
    show decorateAllW reg pu name st rest (app d base) tr =
      (.ok ((d :: rest).foldl (fun v d => app d v) base), st)
    rw [ih st (app d base) (fun x hx => h x (List.mem_cons_of_mem d hx))]
    rfl

/-- Scenario for C3: the decorated type. -/
def c3typ : GoType := ⟨"*godi.Service", false, []⟩

/-- Scenario for C3: the decorated name. -/
def c3name : Name := ⟨"svc", c3typ⟩

/-- Scenario for C3: the base provider. -/
def c3prov : Provider :=
  FactoryMethod.toProvider 7 ⟨c3name, [], fun _ => .ok (.strv "base"), 0⟩

/-- Scenario for C3: a priority-10 decorator tagging its input with d10. -/
def c3d10 : Decorator :=
  FactoryDecorator.toDecorator ⟨c3name, [], fun v _ => .ok (.mapv c3typ [("d10", v)]), 10⟩

/-- Scenario for C3: a priority-5 decorator tagging its input with d5. -/
def c3d5 : Decorator :=
  FactoryDecorator.toDecorator ⟨c3name, [], fun v _ => .ok (.mapv c3typ [("d5", v)]), 5⟩

/-- Scenario for C3: a resolver with the provider and both decorators
registered, the priority-10 decorator first. -/
def c3reg : Registry :=
  match (registerR newResolverRegistry 5 newRState (.asProvider c3prov) []).1 with
  | .ok g1 =>
    (match (registerR g1 5 newRState (.asDecorator c3d10) []).1 with
     | .ok g2 =>
       (match (registerR g2 5 newRState (.asDecorator c3d5) []).1 with
        | .ok g3 => g3
        | .error _ => g2)
     | .error _ => g1)
  | .error _ => newResolverRegistry

/-- C3: decorators for a name are applied in ascending priority order, each
receiving the output of the previous one, and the stored value is their left
fold over the provider's output: (1) registering a decorator inserts it (via
`Add`) into the list held for its `ForName`; (2) insertion keeps that list
sorted by ascending priority; (3) the new decorator lands before every
equal-or-higher-priority entry and after every strictly lower one; (4) for
dependency-free pure decorators `provideUsing` returns and stores
`dk(...(d1(base)))`, the fold of the sorted decorator list over the
provider's output. -/
theorem decorator_composition_spec :
    (∀ (ps : List Provider) (m : List (Name × List Decorator)) (d : Decorator),
      decoratorsFor ⟨ps, decoratorsAdd m d⟩ d.forName =
        cowAdd cmpDecorator (decoratorsFor ⟨ps, m⟩ d.forName) d) ∧
    (∀ (l : List Decorator) (d : Decorator),
      DecSortedAsc l → DecSortedAsc (cowAdd cmpDecorator l d)) ∧
    (∀ (l : List Decorator) (d : Decorator),
      ∃ l1 l2, cowAdd cmpDecorator l d = l1 ++ d :: l2 ∧
        (∀ x ∈ l1, x.priority < d.priority) ∧ l = l1 ++ l2) ∧
    (∀ (reg : Registry) (fuel : Nat) (st : RState) (p : Provider) (n : Name)
        (tr : Tracker) (base : Value) (app : Decorator → Value → Value),
      tr.visited.contains n = false →
      storeGet st.store n = none →
      p.deps = [] →
      p.provide n [] = .ok base →
      (∀ d ∈ decoratorsFor reg n, d.deps = [] ∧
        ∀ v, d.decorate v [] = .ok (app d v)) →
      provideUsingR reg (fuel + 1) st p n tr =
        (.ok ((decoratorsFor reg n).foldl (fun v d => app d v) base),
          ⟨storePut st.store n ((decoratorsFor reg n).foldl (fun v d => app d v) base),
            st.log ++ [(p.pid, n)]⟩)) := by
  refine ⟨decoratorsFor_add_same, cowAdd_decorator_sorted, cowAdd_decorator_split, ?_⟩
  intro reg fuel st p n tr base app hnv hmiss hdeps hprov hdec
  have hnmem : n ∉ tr.visited := by simpa using hnv
  have hpush : trackerPush tr n = .ok ⟨n :: tr.visited, tr.stack ++ [n]⟩ := by
    simp [trackerPush, hnmem]
  have h1 : resolveDepsW reg (provideUsingR reg fuel) st p.deps
      ⟨n :: tr.visited, tr.stack ++ [n]⟩ = (.ok [], st) := by
    rw [hdeps]
    rfl
  have h2 : decorateAllW reg (provideUsingR reg fuel) n
      ⟨st.store, st.log ++ [(p.pid, n)]⟩ (decoratorsFor reg n) base
      ⟨n :: tr.visited, tr.stack ++ [n]⟩ =
      (.ok ((decoratorsFor reg n).foldl (fun v d => app d v) base),
        ⟨st.store, st.log ++ [(p.pid, n)]⟩) :=
    decorateAllW_pure_fold reg _ n (decoratorsFor reg n) _ base _ app hdec
  simp only [provideUsingR, hpush, hmiss, h1, hprov, h2]

/-- Witness for C3: the registered decorator list for the scenario name is
sorted ascending (priority 5 before priority 10 although registered after),
and resolving stores the composed value d10(d5(base)). -/
theorem decorator_composition_spec_witness :
    DecSortedAsc (decoratorsFor c3reg c3name) ∧
    provideUsingR c3reg 4 newRState c3prov c3name newTracker =
      (.ok (.mapv c3typ [("d10", .mapv c3typ [("d5", .strv "base")])]),
        ⟨[(c3name, .mapv c3typ [("d10", .mapv c3typ [("d5", .strv "base")])])],
          [(7, c3name)]⟩) := by
  constructor
  · exact decorator_composition_spec.2.1 [c3d10]
      (FactoryDecorator.toDecorator ⟨c3name, [], fun v _ => .ok (.mapv c3typ [("d5", v)]), 5⟩)
      (by decide)
  · have happ : ∀ d ∈ decoratorsFor c3reg c3name, d.deps = [] ∧
        ∀ v, d.decorate v [] = .ok
          ((fun (d : Decorator) (v : Value) =>
            if d.priority = 5 then Value.mapv c3typ [("d5", v)]
            else Value.mapv c3typ [("d10", v)]) d v) := by
      have hlist : decoratorsFor c3reg c3name = [c3d5, c3d10] := rfl
      rw [hlist]
      intro d hd
      rcases List.mem_cons.mp hd with rfl | hd2
      · exact ⟨rfl, fun v => rfl⟩
      · rcases List.mem_cons.mp hd2 with rfl | hd3
        · exact ⟨rfl, fun v => rfl⟩
        · cases hd3
    exact decorator_composition_spec.2.2.2 c3reg 3 newRState c3prov c3name newTracker
      (.strv "base") _ rfl rfl rfl rfl happ

/-! ## C8: condition-gated registration is a silent no-op -/

/-- Scenario for C8: a condition whose referent named string component does
not exist in a fresh resolver. -/
def c8cond : Condition := ⟨"APP_ENV", true, "dev"⟩

/-- Scenario for C8: the provider whose registration is gated. -/
def c8prov : Provider :=
  FactoryMethod.toProvider 9
    ⟨⟨"short_description", StringType⟩, [], fun _ => .ok (.strv "DEV"), 100⟩

/-- C8: for a `Register` call whose registrable was successfully built, if
the conditions evaluate to false — in particular when a condition's referent
named string component is missing, or when the referent resolves but the
operator rejects its value — registration adds nothing to the provider or
decorator lists and returns nil (never an error). -/
theorem conditional_registration_noop :
    (∀ (reg : Registry) (fuel : Nat) (st : RState) (conds : List Condition)
        (st1 : RState) (p : Provider) (d : Decorator),
      validateCondsR reg fuel st conds = (false, st1) →
      registerR reg fuel st (.asProvider p) conds = (.ok reg, st1) ∧
      registerR reg fuel st (.asDecorator d) conds = (.ok reg, st1)) ∧
    (∀ (reg : Registry) (fuel : Nat) (st : RState) (c : Condition),
      queryFind reg st (.byName ⟨c.namedStringComponent, StringType⟩) = [] →
      validateConditionR reg fuel st c = (false, st)) ∧
    (∀ (reg : Registry) (fuel : Nat) (st : RState) (c : Condition) (s : String),
      queryFind reg st (.byName ⟨c.namedStringComponent, StringType⟩) =
        [⟨⟨c.namedStringComponent, StringType⟩, some (.strv s), none⟩] →
      condApply c s = false →
      validateConditionR reg fuel st c = (false, st)) := by
  refine ⟨?_, ?_, ?_⟩
  · intro reg fuel st conds st1 p d hconds
    constructor
    · unfold registerR
      rw [hconds]
    · unfold registerR
      rw [hconds]
  · intro reg fuel st c hq
    unfold validateConditionR resolveR resolveW
    dsimp only
    rw [hq]
    simp [validate, collectW]
  · intro reg fuel st c s hq hop
    unfold validateConditionR resolveR resolveW
    dsimp only
    rw [hq]
    simp [validate, collectW, obtainW, Value.asString, hop]

/-- Witness for C8: registering the gated provider on a fresh resolver with
the `APP_ENV`-equals-dev condition (whose referent is missing) returns nil
and leaves the registry unchanged; and on a store binding `APP_ENV` to
`production` the condition also evaluates false via its operator. -/
theorem conditional_registration_noop_witness :
    registerR newResolverRegistry 5 newRState (.asProvider c8prov) [c8cond] =
      (.ok newResolverRegistry, newRState) ∧
    validateConditionR newResolverRegistry 5
      ⟨[(⟨"APP_ENV", StringType⟩, .strv "production")], []⟩ c8cond =
      (false, ⟨[(⟨"APP_ENV", StringType⟩, .strv "production")], []⟩) := by
  constructor
  · exact (conditional_registration_noop.1 newResolverRegistry 5 newRState [c8cond]
      newRState c8prov ⟨⟨"x", StringType⟩, fun v _ => .ok v, [], 0⟩ rfl).1
  · exact conditional_registration_noop.2.2 newResolverRegistry 5
      ⟨[(⟨"APP_ENV", StringType⟩, .strv "production")], []⟩ c8cond "production" rfl rfl

/-! ## C9: TryResolve error discipline -/

theorem qbtAddNames_no_match (st : RState) (t : GoType) (p : Provider)
    (names : List Name) (basket : List (Name × QueryResult))
    (h : ∀ n ∈ names, matchType t n.typ = false) :
    qbtAddNames st t p names basket = basket := by
  induction names generalizing basket with
  | nil => rfl
  | cons n ns ih =>
    have hn := h n (List.mem_cons_self n ns)
    unfold qbtAddNames
    rw [if_neg]
    · exact ih basket (fun m hm => h m (List.mem_cons_of_mem n hm))
    · rw [hn]
      simp

theorem qbtBasket_no_match (st : RState) (t : GoType) (ps : List Provider)
    (basket : List (Name × QueryResult))
    (h : ∀ p ∈ ps, ∀ n ∈ p.providableNames, matchType t n.typ = false) :
    qbtBasket st t ps basket = basket := by
  induction ps generalizing basket with
  | nil => rfl
  | cons p ps ih =>
    unfold qbtBasket
    rw [qbtAddNames_no_match st t p p.providableNames basket
      (h p (List.mem_cons_self p ps))]
    exact ih basket (fun q hq => h q (List.mem_cons_of_mem p hq))

/-- Scenario for C9: the requested type. -/
def c9typ : GoType := ⟨"*godi.TestService", false, []⟩

/-- Scenario for C9: two providers of the requested type under distinct
names, making a by-type unique resolution ambiguous. -/
def c9ambReg : Registry :=
  ⟨[FactoryMethod.toProvider 21 ⟨⟨"s1", c9typ⟩, [], fun _ => .ok (.strv "one"), 0⟩,
    FactoryMethod.toProvider 22 ⟨⟨"s2", c9typ⟩, [], fun _ => .ok (.strv "two"), 0⟩], []⟩

/-- Scenario for C9: a single provider of the requested type whose factory
fails. -/
def c9failReg : Registry :=
  ⟨[FactoryMethod.toProvider 23
      ⟨⟨"s1", c9typ⟩, [], fun _ => .fail "provider intentionally failed", 0⟩], []⟩

/-- C9: `TryResolve` with no matching provider returns the zero value,
`found = false` and a nil error; every other resolution failure is still
surfaced as a non-nil error: any engine error is wrapped and returned, and
concretely both an ambiguous by-type resolution (two candidates) and a
failing factory yield `found = false` with a non-nil error. -/
theorem tryresolve_spec :
    (∀ (reg : Registry) (fuel : Nat) (st : RState) (t : GoType) (zero : Value)
        (castOk : Value → Bool),
      (∀ p ∈ reg.providers, ∀ n ∈ p.providableNames, matchType t n.typ = false) →
      tryResolveR reg fuel st t zero castOk = ((zero, false, none), st)) ∧
    (∀ (reg : Registry) (fuel : Nat) (st : RState) (t : GoType) (zero : Value)
        (castOk : Value → Bool) (e : GoErr) (st1 : RState),
      resolveR reg fuel st (tryResolveReq t) none = (.error e, st1) →
      tryResolveR reg fuel st t zero castOk =
        ((zero, false,
          some (.wrap ("failed to resolve request " ++ (tryResolveReq t).render) e)), st1)) ∧
    ((tryResolveR c9ambReg 5 newRState c9typ Value.invalid (fun _ => true)).1.2.1 = false ∧
      ((tryResolveR c9ambReg 5 newRState c9typ Value.invalid (fun _ => true)).1.2.2.isSome
        = true)) ∧
    ((tryResolveR c9failReg 5 newRState c9typ Value.invalid (fun _ => true)).1.2.1 = false ∧
      ((tryResolveR c9failReg 5 newRState c9typ Value.invalid (fun _ => true)).1.2.2.isSome
        = true)) := by
  refine ⟨?_, ?_, ⟨rfl, rfl⟩, ⟨rfl, rfl⟩⟩
  · intro reg fuel st t zero castOk h
    have hq : queryFind reg st (.byType t) = [] := by
      show (qbtBasket st t reg.providers []).map (fun e => e.2) = []
      rw [qbtBasket_no_match st t reg.providers [] h]
      rfl
    unfold tryResolveR resolveTypedR resolveR resolveW tryResolveReq
    dsimp only
    rw [hq]
    simp [validate, collectW]
  · intro reg fuel st t zero castOk e st1 hres
    unfold tryResolveR resolveTypedR
    rw [hres]

/-- Witness for C9: a fresh resolver has no provider for the scenario type,
so `TryResolve` returns (zero, false, nil). -/
theorem tryresolve_spec_witness :
    tryResolveR newResolverRegistry 5 newRState c9typ Value.invalid (fun _ => true) =
      ((Value.invalid, false, none), newRState) := by
  apply tryresolve_spec.1
  intro p hp n hn
  have hp1 : p = FactoryMethod.toProvider 0
      ⟨⟨"godi.resolver", resolverType⟩, [], fun _ => .ok resolverValue, 0⟩ := by
    simpa [newResolverRegistry] using hp
  subst hp1
  have hn1 : n = ⟨"godi.resolver", resolverType⟩ := by
    simpa [FactoryMethod.toProvider] using hn
  subst hn1
  rfl

/-! ## C5: multiple-as-map fails on duplicate component names -/

/-- Whether a pipeline step produced an error. -/
def isErrResult (r : (Except GoErr (Value × Bool)) × RState) : Bool :=
  match r.1 with
  | .error _ => true
  | .ok _ => false

theorem collectMapW_ok_keys (pu : PU) (results : List QueryResult)
    (st : RState) (acc : List (String × Value)) (tr : Tracker)
    (entries : List (String × Value)) (st1 : RState)
    (h : collectMapW pu st results acc tr = (.ok entries, st1)) :
    entries.map Prod.fst = acc.map Prod.fst ++ results.map (fun r => r.name.name) ∧
      ((acc.map Prod.fst).Nodup → (entries.map Prod.fst).Nodup) := by
  induction results generalizing st acc with
  | nil =>
    unfold collectMapW at h
    injection h with h1 h2
    injection h1 with h1
    subst h1
    exact ⟨by simp, fun hh => hh⟩
  | cons res rest ih =>
    unfold collectMapW at h
    by_cases hdup : acc.any (fun e => e.1 = res.name.name) = true
    · rw [if_pos hdup] at h
      cases h
    · rw [if_neg hdup] at h
      revert h
      split
      next e st2 heq =>
        intro h
        cases h
      next w st2 heq =>
        intro h
        have hih := ih st2 (acc ++ [(res.name.name, w)]) h
        constructor
        · rw [hih.1]
          simp
        · intro hnd
          apply hih.2
          rw [List.map_append]
          simp only [List.map_cons, List.map_nil]
          refine List.Nodup.append hnd (List.nodup_singleton _) ?_
          intro a ha hb
          have hab : a = res.name.name := by simpa using hb
          obtain ⟨e, he, hea⟩ := List.mem_map.mp ha
          apply hdup
          rw [List.any_eq_true]
          exact ⟨e, he, by simp [hea, hab]⟩

/-- C5 (spec-modelled collector): a `Multiple` dependency collected as a map
never silently drops an entry: (1) on success the map's keys are exactly the
result names, in order — hence the names were distinct; (2) if two query
results share the same component name string, collection fails with an
error. -/
theorem multiple_as_map_duplicates_fail :
    (∀ (pu : PU) (st : RState) (uT : GoType) (results : List QueryResult)
        (tr : Tracker) (entries : List (String × Value)) (st1 : RState),
      collectW pu st uT .multipleAsMap results tr =
        (.ok (.mapv uT entries, true), st1) →
      entries.map Prod.fst = results.map (fun r => r.name.name) ∧
        (results.map (fun r => r.name.name)).Nodup) ∧
    (∀ (pu : PU) (st : RState) (uT : GoType) (results : List QueryResult)
        (tr : Tracker),
      ¬ (results.map (fun r => r.name.name)).Nodup →
      isErrResult (collectW pu st uT .multipleAsMap results tr) = true) := by
  constructor
  · intro pu st uT results tr entries st1 h
    have h2 : collectMapW pu st results [] tr = (.ok entries, st1) := by
      revert h
      show (match collectMapW pu st results [] tr with
        | (.error e, st1) => ((.error e : Except GoErr (Value × Bool)), st1)
        | (.ok es, st1) => (.ok (Value.mapv uT es, true), st1)) =
          (.ok (.mapv uT entries, true), st1) →
        collectMapW pu st results [] tr = (.ok entries, st1)
      split
      next e st2 heq =>
        intro h
        cases h
      next es st2 heq =>
        intro h
        injection h with h1 hst
        injection h1 with h1
        injection h1 with hval hfound
        injection hval with ht hes
        rw [heq, hes, hst]
    have hk := collectMapW_ok_keys pu results st [] tr entries st1 h2
    refine ⟨by simpa using hk.1, ?_⟩
    have := hk.2 (by simp)
    rw [hk.1] at this
    simpa using this
  · intro pu st uT results tr hdup
    show isErrResult (match collectMapW pu st results [] tr with
      | (.error e, st1) => ((.error e : Except GoErr (Value × Bool)), st1)
      | (.ok es, st1) => (.ok (Value.mapv uT es, true), st1)) = true
    split
    next e st2 heq => rfl
    next es st2 heq =>
      exfalso
      have hk := collectMapW_ok_keys pu results st [] tr es st2 heq
      apply hdup
      have := hk.2 (by simp)
      rw [hk.1] at this
      simpa using this

/-- Witness for C5: two stored results sharing the name string a make the
map collector fail, while two distinctly named results collect into a map
holding both entries. -/
theorem multiple_as_map_duplicates_fail_witness :
    (isErrResult (collectW (fun st _ _ _ => (.error (.emsg "unused"), st)) newRState
      StringType .multipleAsMap
      [⟨⟨"a", StringType⟩, some (.strv "x"), none⟩,
       ⟨⟨"a", StringType⟩, some (.strv "y"), none⟩] newTracker) = true) ∧
    (([("a", Value.strv "x"), ("b", Value.strv "y")].map Prod.fst =
        ([⟨⟨"a", StringType⟩, some (.strv "x"), none⟩,
          ⟨⟨"b", StringType⟩, some (.strv "y"), none⟩] :
            List QueryResult).map (fun r => r.name.name)) ∧
      (([⟨⟨"a", StringType⟩, some (.strv "x"), none⟩,
          ⟨⟨"b", StringType⟩, some (.strv "y"), none⟩] :
            List QueryResult).map (fun r => r.name.name)).Nodup) := by
  constructor
  · exact multiple_as_map_duplicates_fail.2
      (fun st _ _ _ => (.error (.emsg "unused"), st)) newRState StringType
      [⟨⟨"a", StringType⟩, some (.strv "x"), none⟩,
       ⟨⟨"a", StringType⟩, some (.strv "y"), none⟩] newTracker (by decide)
  · exact multiple_as_map_duplicates_fail.1
      (fun st _ _ _ => (.error (.emsg "unused"), st)) newRState StringType
      [⟨⟨"a", StringType⟩, some (.strv "x"), none⟩,
       ⟨⟨"b", StringType⟩, some (.strv "y"), none⟩] newTracker
      [("a", Value.strv "x"), ("b", Value.strv "y")] newRState rfl

/-! ## C2: cycle detection -/

/-- The request a `Named` dependency descriptor builds for a name
(inject.go: by-name query, unique-mandatory, unique collector). -/
def depReq (n : Name) : Request :=
  ⟨n.typ, .byName n, .uniqueMandatory, .unique⟩

/-- Whether a resolution outcome is an error whose chain holds a
`Tracker.Push` cycle error containing every name in `ns`. -/
def resultHasCycleWith (r : (Except GoErr (Value × Bool)) × RState)
    (ns : List Name) : Bool :=
  match r.1 with
  | .error e => errHasCycleWith ns e
  | .ok _ => false

/-- Scenario for the C2 counterexample: node types and names.  The graph has
the cycle A -> B -> A, but A's first dependency is the off-cycle node X
whose factory fails. -/
def c2tA : GoType := ⟨"*A", false, []⟩

/-- Scenario for the C2 counterexample: the type of B. -/
def c2tB : GoType := ⟨"*B", false, []⟩

/-- Scenario for the C2 counterexample: the type of X. -/
def c2tX : GoType := ⟨"*X", false, []⟩

/-- Scenario for the C2 counterexample: the name of A. -/
def c2nA : Name := ⟨"A", c2tA⟩

/-- Scenario for the C2 counterexample: the name of B. -/
def c2nB : Name := ⟨"B", c2tB⟩

/-- Scenario for the C2 counterexample: the name of X. -/
def c2nX : Name := ⟨"X", c2tX⟩

/-- Scenario for the C2 counterexample: X's factory fails. -/
def c2pX : Provider :=
  FactoryMethod.toProvider 31 ⟨c2nX, [], fun _ => .fail "X factory failed", 0⟩

/-- Scenario for the C2 counterexample: A depends on X, then B. -/
def c2pA : Provider :=
  FactoryMethod.toProvider 32
    ⟨c2nA, [depReq c2nX, depReq c2nB], fun _ => .ok (.obj c2tA 1 none), 0⟩

/-- Scenario for the C2 counterexample: B depends on A (closing the cycle). -/
def c2pB : Provider :=
  FactoryMethod.toProvider 33
    ⟨c2nB, [depReq c2nA], fun _ => .ok (.obj c2tB 1 none), 0⟩

/-- Scenario for the C2 counterexample: the registry. -/
def c2reg : Registry := ⟨[c2pA, c2pB, c2pX], []⟩

/-- C2 counterexample: in a graph with the cycle A -> B -> A where A's first
dependency is the off-cycle failing node X, resolving A (a name on the
cycle) returns an error, but that error is X's factory failure — not a
`Tracker.Push` cycle error, and its chain does not contain every name of
the cycle (B is missing).  The first two conjuncts exhibit the cycle in the
registry's dependency lists. -/
theorem cycle_error_not_always_full :
    (c2pA.deps = [depReq c2nX, depReq c2nB] ∧ c2pB.deps = [depReq c2nA]) ∧
    isErrResult (resolveR c2reg 8 newRState (resolveNamedReq c2tA "A") none) = true ∧
    resultHasCycleWith (resolveR c2reg 8 newRState (resolveNamedReq c2tA "A") none)
      [c2nA, c2nB] = false := by
  exact ⟨⟨rfl, rfl⟩, rfl, rfl⟩

theorem takeUntilIncl_append_self (n : Name) (l : List Name) (h : n ∉ l) :
    takeUntilIncl n (l ++ [n]) = l ++ [n] := by
  induction l with
  | nil => simp [takeUntilIncl]
  | cons x xs ih =>
    have hx : ¬ x = n := fun hh => h (List.mem_cons.mpr (Or.inl hh.symm))
    show takeUntilIncl n (x :: (xs ++ [n])) = x :: (xs ++ [n])
    unfold takeUntilIncl
    rw [if_neg hx, ih (fun hm => h (List.mem_cons_of_mem x hm))]

/-- The cycle slice built by `Push` when the stack starts at the re-pushed
name is the name followed by the whole reversed stack. -/
theorem buildCycle_head (l : List Name) (first : Name) (h : l.head? = some first)
    (hnd : l.Nodup) : buildCycle first l = first :: l.reverse := by
  cases l with
  | nil => cases h
  | cons x xs =>
    have hx : x = first := by
      simpa using h
    subst hx
    unfold buildCycle
    rw [List.reverse_cons]
    rw [takeUntilIncl_append_self x xs.reverse
      (by simpa using (List.nodup_cons.mp hnd).1)]

theorem errHasCycleWith_ecycle_of (ns c : List Name) (h : ∀ m ∈ ns, m ∈ c) :
    errHasCycleWith ns (.ecycle c) = true := by
  show ns.all (fun n => c.contains n) = true
  rw [List.all_eq_true]
  intro m hm
  simpa using h m hm

/-- Inversion of `queryByName.find` returning a provider-carrying result:
the store misses the name. -/
theorem queryFind_byName_provider_inv (reg : Registry) (st : RState) (m : Name)
    (p : Provider)
    (h : queryFind reg st (.byName m) = [⟨m, none, some p⟩]) :
    storeGet st.store m = none := by
  cases hg : storeGet st.store m with
  | none => rfl
  | some c =>
    have : queryFind reg st (.byName m) = [⟨m, some c, none⟩] := by
      simp [queryFind, hg]
    rw [this] at h
    simp at h

/-- `provideUsing` on a name already on the resolution path fails
immediately with the wrapped `Push` cycle error built from the stack. -/
theorem provideUsing_push_cycle_error (reg : Registry) (st : RState) (f : Nat)
    (p : Provider) (n : Name) (tr : Tracker)
    (hmem : n ∈ tr.visited) :
    provideUsingR reg (f + 1) st p n tr =
      (.error (.wrap ("dependency cycle detected when trying to provide component " ++
        n.render) (.ecycle (buildCycle n tr.stack))), st) := by
  have hpush : trackerPush tr n = .error (.ecycle (buildCycle n tr.stack)) := by
    simp [trackerPush, hmem]
  unfold provideUsingR
  split
  next e heq =>
    rw [hpush] at heq
    injection heq with heq
    rw [heq]
  next tr1 heq =>
    rw [hpush] at heq
    cases heq

/-- Assembly of one traversal step: a provider with a single by-name
dependency whose sub-resolution fails propagates the inner error through the
dependency-resolution wrap and the provider wrap, leaving the state
untouched. -/
theorem provideUsing_single_dep_error (reg : Registry) (st : RState) (f : Nat)
    (p : Provider) (n : Name) (tr : Tracker) (targ : Name) (ptarg : Provider)
    (eInner : GoErr)
    (hnmem : n ∉ tr.visited)
    (hmiss : storeGet st.store n = none)
    (hdeps : p.deps = [depReq targ])
    (hqt : queryFind reg st (.byName targ) = [⟨targ, none, some ptarg⟩])
    (hinner : provideUsingR reg f st ptarg targ ⟨n :: tr.visited, tr.stack ++ [n]⟩ =
      (.error eInner, st)) :
    provideUsingR reg (f + 1) st p n tr =
      (.error (.wrap
        ("failed to resolve dependencies for provider to provide component " ++ n.render)
        (.wrap ("failed to resolve dependency " ++ (depReq targ).render) eInner)), st) := by
  have hpush : trackerPush tr n = .ok ⟨n :: tr.visited, tr.stack ++ [n]⟩ := by
    simp [trackerPush, hnmem]
  have hres : resolveW reg (provideUsingR reg f) st (depReq targ)
      (trackerBranch ⟨n :: tr.visited, tr.stack ++ [n]⟩) = (.error eInner, st) := by
    unfold resolveW
    dsimp only [depReq]
    rw [hqt]
    simp only [validate, List.length_cons, List.length_nil]
    norm_num
    simp only [collectW, obtainW, trackerBranch]
    rw [hinner]
  have h1 : resolveDepsW reg (provideUsingR reg f) st p.deps
      ⟨n :: tr.visited, tr.stack ++ [n]⟩ =
      (.error (.wrap ("failed to resolve dependency " ++ (depReq targ).render) eInner),
        st) := by
    rw [hdeps]
    unfold resolveDepsW
    rw [hres]
  unfold provideUsingR
  split
  next e heq =>
    rw [hpush] at heq
    cases heq
  next tr1 heq =>
    rw [hpush] at heq
    injection heq with heq
    subst heq
    rw [hmiss]
    rw [h1]

/-- The successor function follows the list, wrapping around to `first`
after the last element. -/
def chainedTo (succNm : Name → Name) (first : Name) : List Name → Prop
  | [] => True
  | [x] => succNm x = first
  | x :: y :: rest => succNm x = y ∧ chainedTo succNm first (y :: rest)

/-- The cycle traversal: starting anywhere along a pure by-name cycle with
the already-visited prefix `pre` on the tracker, the resolution of the next
node fails with an error whose chain carries a `Push` cycle error containing
every name of the cycle, and the state is untouched. -/
theorem cycle_chain_traversal (reg : Registry) (st : RState) (cyc : List Name)
    (succNm : Name → Name) (P : Name → Provider) (first : Name)
    (hq : ∀ m ∈ cyc, queryFind reg st (.byName m) = [⟨m, none, some (P m)⟩])
    (hd : ∀ m ∈ cyc, (P m).deps = [depReq (succNm m)])
    (hnd : cyc.Nodup) (hfirst : cyc.head? = some first) :
    ∀ (rest2 pre : List Name) (n : Name) (fuel : Nat),
      cyc = pre ++ n :: rest2 →
      chainedTo succNm first (n :: rest2) →
      rest2.length + 2 ≤ fuel →
      ∃ e, provideUsingR reg fuel st (P n) n ⟨pre.reverse, pre⟩ = (.error e, st) ∧
        errHasCycleWith cyc e = true := by
  intro rest2
  induction rest2 with
  | nil =>
    intro pre n fuel hcyc hchain hfuel
    have hsn : succNm n = first := hchain
    obtain ⟨f2, rfl⟩ : ∃ f2, fuel = f2 + 2 := ⟨fuel - 2, by omega⟩
    have hmemN : n ∈ cyc := by
      rw [hcyc]
      exact List.mem_append.mpr (Or.inr (List.mem_cons_self n []))
    have hmemF : first ∈ cyc := List.mem_of_mem_head? hfirst
    have hnpre : n ∉ pre := by
      intro hmem
      have hnd2 := hcyc ▸ hnd
      rw [List.nodup_append] at hnd2
      exact hnd2.2.2 hmem (List.mem_cons_self n [])
    have hnrev : n ∉ pre.reverse := by
      intro hmem
      exact hnpre (List.mem_reverse.mp hmem)
    have hmiss : storeGet st.store n = none :=
      queryFind_byName_provider_inv reg st n (P n) (hq n hmemN)
    have hmemF2 : first ∈ n :: pre.reverse := by
      rw [hcyc] at hmemF
      rcases List.mem_append.mp hmemF with h1 | h2
      · exact List.mem_cons_of_mem n (List.mem_reverse.mpr h1)
      · rw [List.mem_singleton] at h2
        rw [h2]
        exact List.mem_cons_self n _
    have hinner := provideUsing_push_cycle_error reg st f2 (P first) first
      ⟨n :: pre.reverse, pre ++ [n]⟩ hmemF2
    have hbc : buildCycle first (pre ++ [n]) = first :: cyc.reverse := by
      rw [← hcyc]
      exact buildCycle_head cyc first hfirst hnd
    rw [show (⟨n :: pre.reverse, pre ++ [n]⟩ : Tracker).stack = pre ++ [n] from rfl,
      hbc] at hinner
    have hdn : (P n).deps = [depReq first] := by
      rw [hd n hmemN, hsn]
    have houter := provideUsing_single_dep_error reg st (f2 + 1) (P n) n
      ⟨pre.reverse, pre⟩ first (P first) _ hnrev hmiss hdn (hq first hmemF) hinner
    refine ⟨_, houter, ?_⟩
    show errHasCycleWith cyc
      (.ecycle (first :: cyc.reverse)) = true
    apply errHasCycleWith_ecycle_of
    intro m hm
    exact List.mem_cons_of_mem first (List.mem_reverse.mpr hm)
  | cons m rest2 ih =>
    intro pre n fuel hcyc hchain hfuel
    obtain ⟨hsn, hchain2⟩ : succNm n = m ∧ chainedTo succNm first (m :: rest2) := hchain
    rw [List.length_cons] at hfuel
    obtain ⟨f, rfl⟩ : ∃ f, fuel = f + 1 := ⟨fuel - 1, by omega⟩
    have hmemN : n ∈ cyc := by
      rw [hcyc]
      exact List.mem_append.mpr (Or.inr (List.mem_cons_self n _))
    have hmemM : m ∈ cyc := by
      rw [hcyc]
      exact List.mem_append.mpr (Or.inr (List.mem_cons_of_mem n (List.mem_cons_self m _)))
    have hnpre : n ∉ pre := by
      intro hmem
      have hnd2 := hcyc ▸ hnd
      rw [List.nodup_append] at hnd2
      exact hnd2.2.2 hmem (List.mem_cons_self n _)
    have hnrev : n ∉ pre.reverse := by
      intro hmem
      exact hnpre (List.mem_reverse.mp hmem)
    have hmiss : storeGet st.store n = none :=
      queryFind_byName_provider_inv reg st n (P n) (hq n hmemN)
    have hcyc2 : cyc = (pre ++ [n]) ++ m :: rest2 := by
      rw [hcyc, List.append_assoc]
      rfl
    obtain ⟨e0, heq0, hc0⟩ := ih (pre ++ [n]) m f hcyc2 hchain2 (by omega)
    rw [show (pre ++ [n]).reverse = n :: pre.reverse by simp] at heq0
    have hdn : (P n).deps = [depReq m] := by
      rw [hd n hmemN, hsn]
    have houter := provideUsing_single_dep_error reg st f (P n) n
      ⟨pre.reverse, pre⟩ m (P m) e0 hnrev hmiss hdn (hq m hmemM) heq0
    exact ⟨_, houter, hc0⟩

/-- C2 (amended): for every dependency graph restricted to a pure by-name
cycle — each name on the cycle resolved by a provider whose dependency list
is exactly the next name on the cycle — resolving the cycle's head (and, by
rotating the cycle, any name on it) returns an error produced by
`Tracker.Push` whose cycle slice contains every name of the cycle, and the
store and log are untouched.  (In general graphs a resolution of a cycle
node may fail earlier with a non-cycle error from an off-cycle dependency —
see the counterexample.) -/
theorem cycle_detection_spec (reg : Registry) (st : RState) (cyc : List Name)
    (succNm : Name → Name) (P : Name → Provider) (first : Name) (fuel : Nat)
    (hq : ∀ m ∈ cyc, queryFind reg st (.byName m) = [⟨m, none, some (P m)⟩])
    (hd : ∀ m ∈ cyc, (P m).deps = [depReq (succNm m)])
    (hnd : cyc.Nodup)
    (hfirst : cyc.head? = some first)
    (hchain : chainedTo succNm first cyc)
    (hfuel : cyc.length + 1 ≤ fuel) :
    ∃ e, resolveR reg fuel st (resolveNamedReq first.typ first.name) none =
        (.error e, st) ∧
      errHasCycleWith cyc e = true := by
  cases hcyc : cyc with
  | nil =>
    rw [hcyc] at hfirst
    cases hfirst
  | cons c0 tail =>
    have hc0 : c0 = first := by
      rw [hcyc] at hfirst
      simpa using hfirst
    subst hc0
    rw [hcyc] at hq hd hnd hchain hfuel
    have hfirst2 : (c0 :: tail).head? = some c0 := rfl
    obtain ⟨e, heq, hcwith⟩ := cycle_chain_traversal reg st (c0 :: tail) succNm P c0
      hq hd hnd hfirst2 tail [] c0 fuel rfl hchain
      (by rw [List.length_cons] at hfuel; simpa using hfuel)
    have heq2 : provideUsingR reg fuel st (P c0) c0 newTracker = (.error e, st) := heq
    have hqf : queryFind reg st (.byName ⟨c0.name, c0.typ⟩) =
        [⟨⟨c0.name, c0.typ⟩, none, some (P c0)⟩] :=
      hq c0 (List.mem_cons_self c0 tail)
    have hcol : collectW (provideUsingR reg fuel) st c0.typ .unique
        [⟨⟨c0.name, c0.typ⟩, none, some (P c0)⟩] newTracker = (.error e, st) := by
      show (match obtainW (provideUsingR reg fuel) st
          ⟨⟨c0.name, c0.typ⟩, none, some (P c0)⟩ newTracker with
        | (.error e, st1) => ((.error e : Except GoErr (Value × Bool)), st1)
        | (.ok v, st1) => (.ok (v, true), st1)) = (.error e, st)
      have hob : obtainW (provideUsingR reg fuel) st
          ⟨⟨c0.name, c0.typ⟩, none, some (P c0)⟩ newTracker = (.error e, st) := heq2
      rw [hob]
    have hval : validate .uniqueMandatory
        [⟨⟨c0.name, c0.typ⟩, none, some (P c0)⟩] = .ok () := rfl
    refine ⟨e, ?_, by exact hcwith⟩
    unfold resolveR resolveW resolveNamedReq
    dsimp only
    rw [hqf, hval]
    exact hcol

/-- Scenario for the C2 witness: A depends only on B. -/
def c2qA : Provider :=
  FactoryMethod.toProvider 34 ⟨c2nA, [depReq c2nB], fun _ => .ok (.obj c2tA 1 none), 0⟩

/-- Scenario for the C2 witness: B depends only on A. -/
def c2qB : Provider :=
  FactoryMethod.toProvider 35 ⟨c2nB, [depReq c2nA], fun _ => .ok (.obj c2tB 1 none), 0⟩

/-- Scenario for the C2 witness: the pure two-cycle registry. -/
def c2pureReg : Registry := ⟨[c2qA, c2qB], []⟩

/-- Witness for C2: on the pure cycle A -> B -> A, resolving A yields an
error whose chain carries a `Push` cycle error containing both A and B. -/
theorem cycle_detection_spec_witness :
    resultHasCycleWith
      (resolveR c2pureReg 5 newRState (resolveNamedReq c2nA.typ c2nA.name) none)
      [c2nA, c2nB] = true := by
  obtain ⟨e, heq, hc⟩ := cycle_detection_spec c2pureReg newRState [c2nA, c2nB]
    (fun m => if m = c2nA then c2nB else c2nA)
    (fun m => if m = c2nA then c2qA else c2qB)
    c2nA 5
    (by
      intro m hm
      rcases List.mem_cons.mp hm with rfl | hm2
      · rfl
      · rcases List.mem_cons.mp hm2 with rfl | hm3
        · rfl
        · cases hm3)
    (by
      intro m hm
      rcases List.mem_cons.mp hm with rfl | hm2
      · rfl
      · rcases List.mem_cons.mp hm2 with rfl | hm3
        · rfl
        · cases hm3)
    (by decide) rfl ⟨rfl, rfl⟩ (by decide)
  unfold resultHasCycleWith
  rw [heq]
  exact hc

end Godi
